import Mathlib

/-!
Verification of the loaf-lang cellular-automaton runtime.

This file shallowly embeds the simulation core of the repository:

* the coordinate algebra and dimension bounds of
  `src/lang/runtime/naive/mod.rs`,
* the neighborhood operator of `src/lang/runtime/ops/neighborhood.rs`,
* the rule-expression evaluator of `src/lang/runtime/ops/rules.rs`,
* the naive transition engine `Runtime::run_tick` of
  `src/lang/runtime/naive/mod.rs`,
* the state registry builder of `src/lang/runtime/datatypes/states.rs`,
* the generic runtime of `src/runtime/mod.rs` (`SynchronousRuntime`),
  its expression evaluator `src/runtime/state.rs` (`LoafType`, `Ruleset`)
  and the `FixedGrid` environment of `src/runtime/environment/naive.rs`.

Rust `HashMap`s are modelled as association lists; all stated properties
are lookup-extensional, so the unspecified hash iteration order becomes
an arbitrary list order that theorems quantify over.  Rust panics
(`unwrap`, `expect`, `panic!`, `unimplemented!`, failed asserts) are
modelled as `Option.none`; a `none` result of an engine function means
the corresponding Rust execution aborts.  Machine integers (`isize`) are
modelled as `Int`; where overflow behaviour matters (the rule-value
arithmetic) the wrap-around at 2^64 is explicit.
-/

namespace Loaf

/-! ### Coordinates (`src/lang/runtime/naive/mod.rs`, `enum Coordinate`)

`add_y` on a 1D coordinate (and similar dimension mismatches) panic in
the source; those operations return `none` here. -/

inductive Coordinate where
  | c1 (x : Int)
  | c2 (x y : Int)
  | c3 (x y z : Int)
deriving DecidableEq, Repr

namespace Coordinate

def add_x : Coordinate → Int → Coordinate
  | c1 x, m => c1 (x + m)
  | c2 x y, m => c2 (x + m) y
  | c3 x y z, m => c3 (x + m) y z

def add_y : Coordinate → Int → Option Coordinate
  | c1 _, _ => none
  | c2 x y, m => some (c2 x (y + m))
  | c3 x y z, m => some (c3 x (y + m) z)

def add_z : Coordinate → Int → Option Coordinate
  | c1 _, _ => none
  | c2 _ _, _ => none
  | c3 x y z, m => some (c3 x y (z + m))

def add_all : Coordinate → Int → List Coordinate
  | c1 x, m => [c1 (x + m)]
  | c2 x y, m => [c2 (x + m) y, c2 x (y + m)]
  | c3 x y z, m => [c3 (x + m) y z, c3 x (y + m) z, c3 x y (z + m)]

def sub_x : Coordinate → Int → Coordinate
  | c1 x, m => c1 (x - m)
  | c2 x y, m => c2 (x - m) y
  | c3 x y z, m => c3 (x - m) y z

def sub_y : Coordinate → Int → Option Coordinate
  | c1 _, _ => none
  | c2 x y, m => some (c2 x (y - m))
  | c3 x y z, m => some (c3 x (y - m) z)

def sub_z : Coordinate → Int → Option Coordinate
  | c1 _, _ => none
  | c2 _ _, _ => none
  | c3 x y z, m => some (c3 x y (z - m))

def sub_all : Coordinate → Int → List Coordinate
  | c1 x, m => [c1 (x - m)]
  | c2 x y, m => [c2 (x - m) y, c2 x (y - m)]
  | c3 x y z, m => [c3 (x - m) y z, c3 x (y - m) z, c3 x y (z - m)]

end Coordinate

/-! ### Dimension bounds (`src/lang/runtime/naive/mod.rs`)

`contains` and `boundary` panic on a dimension mismatch between the
bounds and the coordinate; modelled as `none`. -/

/-- `type Bound = (isize, isize)`: an inclusive `(low, high)` pair. -/
def Bound : Type := Int × Int
deriving DecidableEq

def within_bound (coord : Int) (b : Bound) : Bool :=
  decide (b.1 ≤ coord) && decide (coord ≤ b.2)

def at_bound (coord : Int) (b : Bound) : Bool :=
  decide (b.1 = coord) || decide (coord = b.2)

inductive DimensionBounds where
  | d1 (x : Bound)
  | d2 (x y : Bound)
  | d3 (x y z : Bound)
deriving DecidableEq

namespace DimensionBounds

def contains : DimensionBounds → Coordinate → Option Bool
  | d1 xb, .c1 x => some (within_bound x xb)
  | d2 xb yb, .c2 x y => some (within_bound x xb && within_bound y yb)
  | d3 xb yb zb, .c3 x y z =>
      some (within_bound x xb && within_bound y yb && within_bound z zb)
  | _, _ => none

def boundary : DimensionBounds → Coordinate → Option Bool
  | d1 xb, .c1 x => some (at_bound x xb)
  | d2 xb yb, .c2 x y => some (at_bound x xb || at_bound y yb)
  | d3 xb yb zb, .c3 x y z =>
      some (at_bound x xb || at_bound y yb || at_bound z zb)
  | _, _ => none

end DimensionBounds

/-! ### Neighborhood rules and the neighborhood operator

The rule shape is the one consumed by the runtime
(`src/lang/runtime/ops/neighborhood.rs` and the constructors used by the
tests in `src/lang/runtime/naive/mod.rs`): directed/undirected edges with
a signed magnitude, reserved circles, and compound rules.
`NeighborhoodIter` yields, per rule, a queue popped from its end; the
per-rule yield sequences below reproduce that order.  `UndirectedCircle`
is `unimplemented!` and an empty `Compound` fails an assert; both are
`none`. -/

inductive Dimension where
  | X | Y | Z | All
deriving DecidableEq, Repr

inductive NeighborhoodRule where
  | directedEdge (dimension : Dimension) (magnitude : Int)
  | undirectedEdge (dimension : Dimension) (magnitude : Int)
  | undirectedCircle (dimension : Dimension) (magnitude : Int)
  | compound (children : List NeighborhoodRule)

mutual

/-- The full yield sequence of `NeighborhoodIter` restricted to a single
rule (`NeighborhoodIter::next`, one `match rule` arm). -/
def ruleYield : NeighborhoodRule → Coordinate → Option (List Coordinate)
  | .directedEdge .X m, c => some [c.add_x m]
  | .directedEdge .Y m, c => (c.add_y m).map (fun r => [r])
  | .directedEdge .Z m, c => (c.add_z m).map (fun r => [r])
  | .directedEdge .All m, c => some (c.add_all m).reverse
  | .undirectedEdge .X m, c => some [c.sub_x m, c.add_x m]
  | .undirectedEdge .Y m, c => do
      let a ← c.add_y m
      let s ← c.sub_y m
      pure [s, a]
  | .undirectedEdge .Z m, c => do
      let a ← c.add_z m
      let s ← c.sub_z m
      pure [s, a]
  | .undirectedEdge .All m, c => some (c.add_all m ++ c.sub_all m).reverse
  | .undirectedCircle _ _, _ => none
  | .compound [], _ => none
  | .compound (r :: rest), c => do
      let q ← ruleYield r c
      let q ← chainRules rest q
      pure q.reverse
termination_by r _ => (sizeOf r, 0, 0)
decreasing_by all_goals (simp_wf; omega)

/-- The `for rule in rule_queue` loop of the `Compound` arm: replace the
working set by the union of the rule's application to every coordinate. -/
def chainRules : List NeighborhoodRule → List Coordinate → Option (List Coordinate)
  | [], coords => some coords
  | r :: rest, coords => do
      let coords' ← applyRuleAll r coords
      chainRules rest coords'
termination_by rs _ => (sizeOf rs, 0, 0)
decreasing_by all_goals (simp_wf; omega)

/-- Apply one rule to every coordinate of the working set, concatenating
the results in order. -/
def applyRuleAll : NeighborhoodRule → List Coordinate → Option (List Coordinate)
  | _, [] => some []
  | r, c :: cs => do
      let a ← ruleYield r c
      let b ← applyRuleAll r cs
      pure (a ++ b)
termination_by r coords => (sizeOf r, 1, coords.length)
decreasing_by
  · simp_wf
    exact Prod.Lex.right _ (Prod.Lex.left _ _ (by omega))
  · simp_wf
    exact Prod.Lex.right _ (Prod.Lex.right _ (by omega))

end

/-- `Neighborhood::neighbors`: the rules are consumed in order, each
contributing its yield sequence. -/
def neighbors : List NeighborhoodRule → Coordinate → Option (List Coordinate)
  | [], _ => some []
  | r :: rest, c => do
      let a ← ruleYield r c
      let b ← neighbors rest c
      pure (a ++ b)

/-! ### Rule values and the expression evaluator
(`src/lang/runtime/ops/rules.rs`)

`RuleValue` arithmetic uses plain `isize` operators in the source.  The
embedding uses the release-profile machine semantics: two's-complement
wrap-around at 64 bits (`wrap64`); debug builds would panic on overflow
instead.  Applying arithmetic to a non-number panics (`none`), and the
comparisons use the derived `Ord`, under which every `Number` sorts
before every `Boolean`. -/

def isizeMin : Int := -(2 ^ 63)

def isizeMax : Int := 2 ^ 63 - 1

/-- Two's-complement 64-bit wrap-around of a mathematical integer. -/
def wrap64 (n : Int) : Int := (n + 2 ^ 63) % 2 ^ 64 - 2 ^ 63

inductive RuleValue where
  | Number (n : Int)
  | Boolean (b : Bool)
deriving DecidableEq, Repr

namespace RuleValue

/-- `impl Add for RuleValue`: numbers add with machine `+`, anything else
panics. -/
def addRV : RuleValue → RuleValue → Option RuleValue
  | Number a, Number b => some (Number (wrap64 (a + b)))
  | _, _ => none

/-- `impl Sub for RuleValue`. -/
def subRV : RuleValue → RuleValue → Option RuleValue
  | Number a, Number b => some (Number (wrap64 (a - b)))
  | _, _ => none

/-- `impl Mul for RuleValue`. -/
def mulRV : RuleValue → RuleValue → Option RuleValue
  | Number a, Number b => some (Number (wrap64 (a * b)))
  | _, _ => none

/-- `impl Div for RuleValue`: Rust `/` truncates toward zero and panics on
division by zero and on `isize::MIN / -1` in every build profile. -/
def divRV : RuleValue → RuleValue → Option RuleValue
  | Number a, Number b =>
      if b = 0 then none
      else if a = isizeMin ∧ b = -1 then none
      else some (Number (Int.tdiv a b))
  | _, _ => none

/-- `From<RuleValue> for bool`: numbers coerce (`0 → false`). -/
def toBool : RuleValue → Bool
  | Boolean b => b
  | Number v => decide (v ≠ 0)

/-- The derived `Ord`'s strict order: `Number` is the first variant, so
any number sorts before any boolean. -/
def ltRV : RuleValue → RuleValue → Bool
  | Number a, Number b => decide (a < b)
  | Number _, Boolean _ => true
  | Boolean _, Number _ => false
  | Boolean a, Boolean b => !a && b

/-- The derived `Ord`'s non-strict order. -/
def leRV : RuleValue → RuleValue → Bool
  | Number a, Number b => decide (a ≤ b)
  | Number _, Boolean _ => true
  | Boolean _, Number _ => false
  | Boolean a, Boolean b => !a || b

end RuleValue

/-- The expression tree built by `build_ast` from `RuleASTNode`: leaves
are integer literals and census counters (state names already resolved to
ids by the state map), inner nodes the twelve binary operators. -/
inductive RuleExpr where
  | num (n : Int)
  | census (state : Nat)
  | add (lhs rhs : RuleExpr)
  | sub (lhs rhs : RuleExpr)
  | mul (lhs rhs : RuleExpr)
  | div (lhs rhs : RuleExpr)
  | gt (lhs rhs : RuleExpr)
  | gte (lhs rhs : RuleExpr)
  | lt (lhs rhs : RuleExpr)
  | lte (lhs rhs : RuleExpr)
  | eq (lhs rhs : RuleExpr)
  | neq (lhs rhs : RuleExpr)
  | and (lhs rhs : RuleExpr)
  | or (lhs rhs : RuleExpr)
deriving DecidableEq, Repr

/-- `RuleOperation::evaluate`: both operands are evaluated, then the
operator applied; `none` is a panic (non-number arithmetic operand,
division by zero). `Census` counts occurrences in the neighborhood. -/
def evalRule : RuleExpr → List Nat → Option RuleValue
  | .num n, _ => some (.Number n)
  | .census s, nbhd => some (.Number (nbhd.countP (fun x => x == s) : Nat))
  | .add l r, nbhd => do RuleValue.addRV (← evalRule l nbhd) (← evalRule r nbhd)
  | .sub l r, nbhd => do RuleValue.subRV (← evalRule l nbhd) (← evalRule r nbhd)
  | .mul l r, nbhd => do RuleValue.mulRV (← evalRule l nbhd) (← evalRule r nbhd)
  | .div l r, nbhd => do RuleValue.divRV (← evalRule l nbhd) (← evalRule r nbhd)
  | .gt l r, nbhd => do
      let a ← evalRule l nbhd
      let b ← evalRule r nbhd
      pure (.Boolean (RuleValue.ltRV b a))
  | .gte l r, nbhd => do
      let a ← evalRule l nbhd
      let b ← evalRule r nbhd
      pure (.Boolean (RuleValue.leRV b a))
  | .lt l r, nbhd => do
      let a ← evalRule l nbhd
      let b ← evalRule r nbhd
      pure (.Boolean (RuleValue.ltRV a b))
  | .lte l r, nbhd => do
      let a ← evalRule l nbhd
      let b ← evalRule r nbhd
      pure (.Boolean (RuleValue.leRV a b))
  | .eq l r, nbhd => do
      let a ← evalRule l nbhd
      let b ← evalRule r nbhd
      pure (.Boolean (decide (a = b)))
  | .neq l r, nbhd => do
      let a ← evalRule l nbhd
      let b ← evalRule r nbhd
      pure (.Boolean (decide (a ≠ b)))
  | .and l r, nbhd => do
      let a ← evalRule l nbhd
      let b ← evalRule r nbhd
      pure (.Boolean (a.toBool && b.toBool))
  | .or l r, nbhd => do
      let a ← evalRule l nbhd
      let b ← evalRule r nbhd
      pure (.Boolean (a.toBool || b.toBool))

/-! ### The rule table (`Rules`, `src/lang/runtime/ops/rules.rs`)

`Rules::from_block` folds the declared transition rules into a map from
from-state to the vector of `(to, expr)` pairs, pushing in declaration
order.  State names are resolved through the (complete) state map at
build time; the embedding works on already-resolved ids. -/

structure TransitionRule where
  fromState : Nat
  toState : Nat
  root : RuleExpr
deriving DecidableEq, Repr

/-- `HashMap<FromState, Vec<(ToState, Box<dyn RuleOperation>)>>` as an
association list with unique keys. -/
def RulesT : Type := List (Nat × List (Nat × RuleExpr))

/-- `HashMap::get` on the rule table. -/
def rulesGet : RulesT → Nat → Option (List (Nat × RuleExpr))
  | [], _ => none
  | (k, v) :: rest, s => if k = s then some v else rulesGet rest s

/-- `rules.entry(from).or_insert_with(Vec::new).push((to, r))`. -/
def rulesInsertRule : RulesT → Nat → Nat → RuleExpr → RulesT
  | [], f, t, e => [(f, [(t, e)])]
  | (k, v) :: rest, f, t, e =>
      if k = f then (k, v ++ [(t, e)]) :: rest
      else (k, v) :: rulesInsertRule rest f t e

/-- `Rules::from_block`. -/
def rulesFromBlock (block : List TransitionRule) : RulesT :=
  block.foldl (fun acc r => rulesInsertRule acc r.fromState r.toState r.root) []

/-- The scan inside `Rules::evaluate`: first rule whose value coerces to
true fires; a failed expression evaluation aborts (`none`). -/
def scanRules : List (Nat × RuleExpr) → List Nat → Option (Option Nat)
  | [], _ => some none
  | (toS, r) :: rest, nbhd => do
      let v ← evalRule r nbhd
      if v.toBool then pure (some toS) else scanRules rest nbhd

/-- `Rules::evaluate`: `self.rules.get(&state)?` returns "no change" when
the from-state has no entry. The outer `Option` is abort, the inner one
the `Option<StateId>` result. -/
def rulesEvaluate (rules : RulesT) (state : Nat) (nbhd : List Nat) :
    Option (Option Nat) :=
  match rulesGet rules state with
  | none => some none
  | some entries => scanRules entries nbhd

/-! ### Generations (`HashMap<Coordinate, StateId>`) -/

def Gen : Type := List (Coordinate × Nat)

def lookupG : Gen → Coordinate → Option Nat
  | [], _ => none
  | (k, v) :: rest, c => if k = c then some v else lookupG rest c

/-- `HashMap::insert` (modelled up to lookup equivalence). -/
def insertG (g : Gen) (c : Coordinate) (v : Nat) : Gen :=
  (c, v) :: g.filter (fun p => decide (p.1 ≠ c))

def keysG (g : Gen) : List Coordinate := g.map Prod.fst

/-! ### Boundary blocks (`src/lang/parse/blocks/boundary.rs`) -/

inductive BoundaryBlock where
  | void
  | wrap
  | infinite
  | staticb (name : Option String)
deriving DecidableEq

/-- `*self != BoundaryBlock::Infinite`. -/
def BoundaryBlock.is_finite : BoundaryBlock → Bool
  | .infinite => false
  | _ => true

/-- Returns the pinned state's name: note `Static(None)` yields `none`. -/
def BoundaryBlock.is_static : BoundaryBlock → Option String
  | .staticb n => n
  | _ => none

/-! ### The naive runtime (`src/lang/runtime/naive/mod.rs`) -/

structure Runtime where
  current_tick : Gen
  next_tick : Gen
  initial_dimensions : DimensionBounds
  boundary : BoundaryBlock
  static_state : Option Nat
  default_state : Option Nat
  rules : RulesT
  neighborhood : List NeighborhoodRule
  tick : Nat

namespace Runtime

/-- `Runtime::get_state`: explicit state if present, else the default —
with no bounds or boundary check whatsoever. -/
def get_state (rt : Runtime) (c : Coordinate) : Option Nat :=
  match lookupG rt.current_tick c with
  | some s => some s
  | none => rt.default_state

/-- `Runtime::set_cell`. -/
def set_cell (rt : Runtime) (c : Coordinate) (s : Nat) : Runtime :=
  { rt with current_tick := insertG rt.current_tick c s }

/-- Branch of the neighbor loop reached when the neighbor passed the
finite-bounds and static-edge checks: read it from `current_tick`, or —
under an in`is_finite` boundary — read the default state and possibly
push the neighbor onto the schedule.  The push happens only when the
popped cell `coord` itself exists in `current_tick`. -/
def visitDefaultCase (rt : Runtime) (coord n : Coordinate) :
    Option (List Nat × List Coordinate) :=
  match lookupG rt.current_tick n with
  | some s => some ([s], [])
  | none =>
      if rt.boundary.is_finite then some ([], [])
      else
        match rt.default_state with
        | none => none
        | some d =>
            some ([d], if (lookupG rt.current_tick coord).isSome then [n] else [])

/-- The static-edge check of the neighbor loop: with a static state set,
a neighbor on the bounds' edge contributes the static state. -/
def visitStaticCheck (rt : Runtime) (coord n : Coordinate) :
    Option (List Nat × List Coordinate) :=
  match rt.static_state with
  | some s => do
      let onEdge ← rt.initial_dimensions.boundary n
      if onEdge then pure ([s], []) else visitDefaultCase rt coord n
  | none => visitDefaultCase rt coord n

/-- One iteration of the `for neighbor in neighbors(coord)` loop of
`Runtime::run_tick`: returns this neighbor's census contribution and
schedule pushes.  A finite boundary skips neighbors outside the initial
bounds. -/
def visitNeighbor (rt : Runtime) (coord n : Coordinate) :
    Option (List Nat × List Coordinate) :=
  if rt.boundary.is_finite then do
    let inside ← rt.initial_dimensions.contains n
    if inside then visitStaticCheck rt coord n else pure ([], [])
  else visitStaticCheck rt coord n

/-- The whole neighbor loop, concatenating census contributions and
schedule pushes in order. -/
def visitAll (rt : Runtime) (coord : Coordinate) :
    List Coordinate → Option (List Nat × List Coordinate)
  | [] => some ([], [])
  | n :: rest => do
      let (s1, w1) ← visitNeighbor rt coord n
      let (s2, w2) ← visitAll rt coord rest
      pure (s1 ++ s2, w1 ++ w2)

/-- The body of the `while` loop of `Runtime::run_tick` for one popped
coordinate: build the neighborhood census and the schedule pushes, read
the cell's state (default if absent; its absence without a default is
the `expect` panic), evaluate the rule table, and compute the value
inserted into `next_tick` — `none` meaning nothing is inserted because
the result equals the default state. -/
def processCell (rt : Runtime) (coord : Coordinate) :
    Option (Option Nat × List Coordinate) := do
  let ns ← neighbors rt.neighborhood coord
  let (nbhdStates, wake) ← visitAll rt coord ns
  let state ← (match lookupG rt.current_tick coord with
               | some s => some s
               | none => rt.default_state)
  let res ← rulesEvaluate rt.rules state nbhdStates
  let ins := match res with
    | some newState =>
        if rt.default_state = some newState then none else some newState
    | none => if rt.default_state = some state then none else some state
  pure (ins, wake)

/-- The cell's next-tick contribution as a pure function of the prior
generation (first component of `processCell`). -/
def stepValue (rt : Runtime) (coord : Coordinate) : Option (Option Nat) :=
  (processCell rt coord).map Prod.fst

/-- The schedule pushes made while processing a cell. -/
def wakeOf (rt : Runtime) (coord : Coordinate) : List Coordinate :=
  match processCell rt coord with
  | some (_, w) => w
  | none => []

/-- Number of schedule entries present in the prior generation. -/
def countLive (rt : Runtime) (sched : List Coordinate) : Nat :=
  sched.countP (fun c => (lookupG rt.current_tick c).isSome)

lemma visitDefaultCase_wake {rt : Runtime} {coord n : Coordinate} {s w}
    (h : visitDefaultCase rt coord n = some (s, w)) :
    ∀ m ∈ w, lookupG rt.current_tick m = none := by
  unfold visitDefaultCase at h
  cases hn : lookupG rt.current_tick n with
  | some v => simp [hn] at h; simp [h.2]
  | none =>
    simp only [hn] at h
    split at h
    · simp at h; simp [h.2]
    · cases hd : rt.default_state with
      | none => simp [hd] at h
      | some d =>
        simp [hd] at h
        intro m hm
        rw [← h.2] at hm
        split at hm
        · simp at hm; simpa [hm] using hn
        · simp at hm

lemma visitDefaultCase_wake_dead {rt : Runtime} {coord n : Coordinate} {s w}
    (h : visitDefaultCase rt coord n = some (s, w))
    (hc : lookupG rt.current_tick coord = none) : w = [] := by
  unfold visitDefaultCase at h
  cases hn : lookupG rt.current_tick n with
  | some v => simp [hn] at h; simp [h.2]
  | none =>
    simp only [hn] at h
    split at h
    · simp at h; simp [h.2]
    · cases hd : rt.default_state with
      | none => simp [hd] at h
      | some d => simp [hd, hc] at h; simp [h.2]

lemma visitStaticCheck_wake {rt : Runtime} {coord n : Coordinate} {s w}
    (h : visitStaticCheck rt coord n = some (s, w)) :
    ∀ m ∈ w, lookupG rt.current_tick m = none := by
  unfold visitStaticCheck at h
  cases hs : rt.static_state with
  | none => simp only [hs] at h; exact visitDefaultCase_wake h
  | some v =>
    simp only [hs] at h
    cases hb : rt.initial_dimensions.boundary n with
    | none => simp [hb] at h
    | some onEdge =>
      simp only [hb, Option.bind_eq_bind, Option.some_bind] at h
      split at h
      · simp at h; simp [h.2]
      · exact visitDefaultCase_wake h

lemma visitStaticCheck_wake_dead {rt : Runtime} {coord n : Coordinate} {s w}
    (h : visitStaticCheck rt coord n = some (s, w))
    (hc : lookupG rt.current_tick coord = none) : w = [] := by
  unfold visitStaticCheck at h
  cases hs : rt.static_state with
  | none => simp only [hs] at h; exact visitDefaultCase_wake_dead h hc
  | some v =>
    simp only [hs] at h
    cases hb : rt.initial_dimensions.boundary n with
    | none => simp [hb] at h
    | some onEdge =>
      simp only [hb, Option.bind_eq_bind, Option.some_bind] at h
      split at h
      · simp at h; simp [h.2]
      · exact visitDefaultCase_wake_dead h hc

lemma visitNeighbor_wake {rt : Runtime} {coord n : Coordinate} {s w}
    (h : visitNeighbor rt coord n = some (s, w)) :
    ∀ m ∈ w, lookupG rt.current_tick m = none := by
  unfold visitNeighbor at h
  split at h
  · cases hin : rt.initial_dimensions.contains n with
    | none => simp [hin] at h
    | some inside =>
      simp only [hin, Option.bind_eq_bind, Option.some_bind] at h
      split at h
      · exact visitStaticCheck_wake h
      · simp at h; simp [h.2]
  · exact visitStaticCheck_wake h

lemma visitNeighbor_wake_dead {rt : Runtime} {coord n : Coordinate} {s w}
    (h : visitNeighbor rt coord n = some (s, w))
    (hc : lookupG rt.current_tick coord = none) : w = [] := by
  unfold visitNeighbor at h
  split at h
  · cases hin : rt.initial_dimensions.contains n with
    | none => simp [hin] at h
    | some inside =>
      simp only [hin, Option.bind_eq_bind, Option.some_bind] at h
      split at h
      · exact visitStaticCheck_wake_dead h hc
      · simp at h; simp [h.2]
  · exact visitStaticCheck_wake_dead h hc

lemma visitAll_wake {rt : Runtime} {coord : Coordinate} :
    ∀ {ns : List Coordinate} {s w},
      visitAll rt coord ns = some (s, w) →
      ∀ m ∈ w, lookupG rt.current_tick m = none := by
  intro ns
  induction ns with
  | nil => intro s w h; simp [visitAll] at h; simp [h.2]
  | cons n rest ih =>
    intro s w h
    simp only [visitAll, Option.bind_eq_bind] at h
    cases h1 : visitNeighbor rt coord n with
    | none => simp [h1] at h
    | some p1 =>
      cases h2 : visitAll rt coord rest with
      | none => simp [h1, h2] at h
      | some p2 =>
        obtain ⟨s1, w1⟩ := p1
        obtain ⟨s2, w2⟩ := p2
        simp [h1, h2] at h
        intro m hm
        rw [← h.2] at hm
        rcases List.mem_append.mp hm with hm1 | hm2
        · exact visitNeighbor_wake h1 m hm1
        · exact ih h2 m hm2

lemma visitAll_wake_dead {rt : Runtime} {coord : Coordinate}
    (hc : lookupG rt.current_tick coord = none) :
    ∀ {ns : List Coordinate} {s w},
      visitAll rt coord ns = some (s, w) → w = [] := by
  intro ns
  induction ns with
  | nil => intro s w h; simp [visitAll] at h; simp [h.2]
  | cons n rest ih =>
    intro s w h
    simp only [visitAll, Option.bind_eq_bind] at h
    cases h1 : visitNeighbor rt coord n with
    | none => simp [h1] at h
    | some p1 =>
      cases h2 : visitAll rt coord rest with
      | none => simp [h1, h2] at h
      | some p2 =>
        obtain ⟨s1, w1⟩ := p1
        obtain ⟨s2, w2⟩ := p2
        simp [h1, h2] at h
        rw [← h.2, visitNeighbor_wake_dead h1 hc, ih h2]
        simp

lemma processCell_wake {rt : Runtime} {coord : Coordinate} {i w}
    (h : processCell rt coord = some (i, w)) :
    ∀ m ∈ w, lookupG rt.current_tick m = none := by
  unfold processCell at h
  cases hns : neighbors rt.neighborhood coord with
  | none => simp [hns] at h
  | some ns =>
    simp only [hns, Option.bind_eq_bind, Option.some_bind] at h
    cases hva : visitAll rt coord ns with
    | none => simp [hva] at h
    | some p =>
      obtain ⟨states, wake⟩ := p
      simp only [hva, Option.some_bind] at h
      have hw : w = wake := by
        cases hst : (match lookupG rt.current_tick coord with
                     | some s => some s
                     | none => rt.default_state) with
        | none => simp [hst] at h
        | some state =>
          simp only [hst, Option.some_bind] at h
          cases hres : rulesEvaluate rt.rules state states with
          | none => simp [hres] at h
          | some res => simp [hres] at h; exact h.2.symm
      rw [hw]
      exact visitAll_wake hva

lemma processCell_wake_dead {rt : Runtime} {coord : Coordinate} {i w}
    (h : processCell rt coord = some (i, w))
    (hc : lookupG rt.current_tick coord = none) : w = [] := by
  unfold processCell at h
  cases hns : neighbors rt.neighborhood coord with
  | none => simp [hns] at h
  | some ns =>
    simp only [hns, Option.bind_eq_bind, Option.some_bind] at h
    cases hva : visitAll rt coord ns with
    | none => simp [hva] at h
    | some p =>
      obtain ⟨states, wake⟩ := p
      simp only [hva, Option.some_bind] at h
      have hw : w = wake := by
        cases hst : (match lookupG rt.current_tick coord with
                     | some s => some s
                     | none => rt.default_state) with
        | none => simp [hst] at h
        | some state =>
          simp only [hst, Option.some_bind] at h
          cases hres : rulesEvaluate rt.rules state states with
          | none => simp [hres] at h
          | some res => simp [hres] at h; exact h.2.symm
      rw [hw]
      exact visitAll_wake_dead hc hva

lemma countLive_wake_append {rt : Runtime} {coord : Coordinate} {i w}
    (h : processCell rt coord = some (i, w)) (rest : List Coordinate) :
    countLive rt (w.reverse ++ rest) = countLive rt rest := by
  unfold countLive
  rw [List.countP_append, List.countP_reverse]
  have : w.countP (fun c => (lookupG rt.current_tick c).isSome) = 0 := by
    rw [List.countP_eq_zero]
    intro m hm
    simp [processCell_wake h m hm]
  omega

/-- The `while !schedule.is_empty()` loop of `Runtime::run_tick`.  The
schedule is a LIFO stack: pushes made while processing a cell are popped
next.  Termination: processing a cell that exists in `current_tick`
strictly decreases the number of live schedule entries (its pushes are
all dead), and processing a dead cell pushes nothing. -/
def runTickLoop (rt : Runtime) : List Coordinate → Gen → Option Gen
  | [], next => some next
  | coord :: rest, next =>
    match h : processCell rt coord with
    | none => none
    | some (some v, wake) => runTickLoop rt (wake.reverse ++ rest) (insertG next coord v)
    | some (none, wake) => runTickLoop rt (wake.reverse ++ rest) next
termination_by sched _ => (countLive rt sched, sched.length)
decreasing_by
  all_goals
    simp_wf
    rcases hc : lookupG rt.current_tick coord with _ | s
    · rw [processCell_wake_dead h hc]
      apply Prod.Lex.right'
      · simp [countLive, List.countP_cons]
      · simp
    · apply Prod.Lex.left
      rw [countLive_wake_append h]
      simp [countLive, List.countP_cons, hc]

/-- `Runtime::run_tick`: schedule every coordinate of `current_tick`,
run the loop writing into an empty `next_tick`, then swap the buffers,
reset `next_tick` and increment the tick counter. -/
def runTick (rt : Runtime) : Option Runtime := do
  let g ← runTickLoop rt (keysG rt.current_tick) []
  pure { rt with current_tick := g, next_tick := [], tick := rt.tick + 1 }

/-- `Runtime::run`: `run_tick` repeated, discarding nothing (the naive
engine returns no delta). -/
def runTicks (rt : Runtime) : Nat → Option Runtime
  | 0 => some rt
  | n + 1 => do runTicks (← runTick rt) n

/-- All coordinates the loop processes: the initially scheduled cells
(the keys of `current_tick`) plus the neighbors they awaken. -/
def processedClosure (rt : Runtime) : List Coordinate :=
  keysG rt.current_tick ++ (keysG rt.current_tick).flatMap (wakeOf rt)

/-- The coordinates processed when the loop starts from an arbitrary
schedule: the schedule itself plus the wakes of its live entries. -/
def schedClosure (rt : Runtime) (sched : List Coordinate) : List Coordinate :=
  sched ++
    (sched.filter (fun d => (lookupG rt.current_tick d).isSome)).flatMap (wakeOf rt)

lemma processCell_stepValue {rt : Runtime} {coord : Coordinate} {i w}
    (h : processCell rt coord = some (i, w)) :
    stepValue rt coord = some i ∧ wakeOf rt coord = w := by
  constructor
  · simp [stepValue, h]
  · simp [wakeOf, h]

lemma wakeOf_dead {rt : Runtime} {coord : Coordinate}
    (hc : lookupG rt.current_tick coord = none) : wakeOf rt coord = [] := by
  unfold wakeOf
  cases h : processCell rt coord with
  | none => rfl
  | some p =>
    obtain ⟨i, w⟩ := p
    exact processCell_wake_dead h hc

lemma mem_wakeOf_dead {rt : Runtime} {d m : Coordinate} (hm : m ∈ wakeOf rt d) :
    lookupG rt.current_tick m = none := by
  unfold wakeOf at hm
  cases h : processCell rt d with
  | none => simp [h] at hm
  | some p =>
    obtain ⟨i, w⟩ := p
    simp only [h] at hm
    exact processCell_wake h m hm

lemma mem_wakeOf_live {rt : Runtime} {d m : Coordinate} (hm : m ∈ wakeOf rt d) :
    (lookupG rt.current_tick d).isSome := by
  by_cases hd : (lookupG rt.current_tick d).isSome
  · exact hd
  · rw [wakeOf_dead (Option.not_isSome_iff_eq_none.mp hd)] at hm
    simp at hm

lemma mem_schedClosure {rt : Runtime} {sched : List Coordinate} {c : Coordinate} :
    c ∈ schedClosure rt sched ↔
      c ∈ sched ∨
        ∃ d, d ∈ sched ∧ (lookupG rt.current_tick d).isSome ∧ c ∈ wakeOf rt d := by
  unfold schedClosure
  rw [List.mem_append, List.mem_flatMap]
  constructor
  · rintro (hm | ⟨d, hd, hw⟩)
    · exact Or.inl hm
    · obtain ⟨hd1, hd2⟩ := List.mem_filter.mp hd
      exact Or.inr ⟨d, hd1, by simpa using hd2, hw⟩
  · rintro (hm | ⟨d, hd, hl, hw⟩)
    · exact Or.inl hm
    · exact Or.inr ⟨d, List.mem_filter.mpr ⟨hd, by simpa using hl⟩, hw⟩

lemma schedClosure_cons {rt : Runtime} {coord : Coordinate}
    {rest : List Coordinate} {c : Coordinate} :
    c ∈ schedClosure rt (coord :: rest) ↔
      c = coord ∨ c ∈ wakeOf rt coord ∨ c ∈ schedClosure rt rest := by
  rw [mem_schedClosure, mem_schedClosure]
  constructor
  · rintro (hm | ⟨d, hd, hl, hw⟩)
    · rcases List.mem_cons.mp hm with h1 | h2
      · exact Or.inl h1
      · exact Or.inr (Or.inr (Or.inl h2))
    · rcases List.mem_cons.mp hd with h1 | h2
      · subst h1; exact Or.inr (Or.inl hw)
      · exact Or.inr (Or.inr (Or.inr ⟨d, h2, hl, hw⟩))
  · rintro (hm | hm | hm | ⟨d, hd, hl, hw⟩)
    · exact Or.inl (List.mem_cons.mpr (Or.inl hm))
    · exact Or.inr ⟨coord, List.mem_cons.mpr (Or.inl rfl), mem_wakeOf_live hm, hm⟩
    · exact Or.inl (List.mem_cons.mpr (Or.inr hm))
    · exact Or.inr ⟨d, List.mem_cons.mpr (Or.inr hd), hl, hw⟩

lemma schedClosure_shift {rt : Runtime} {wake rest : List Coordinate}
    (hdead : ∀ m ∈ wake, lookupG rt.current_tick m = none) {c : Coordinate} :
    c ∈ schedClosure rt (wake.reverse ++ rest) ↔
      c ∈ wake ∨ c ∈ schedClosure rt rest := by
  rw [mem_schedClosure, mem_schedClosure]
  constructor
  · rintro (hm | ⟨d, hd, hl, hw⟩)
    · rcases List.mem_append.mp hm with h1 | h2
      · exact Or.inl (List.mem_reverse.mp h1)
      · exact Or.inr (Or.inl h2)
    · rcases List.mem_append.mp hd with h1 | h2
      · rw [hdead d (List.mem_reverse.mp h1)] at hl
        simp at hl
      · exact Or.inr (Or.inr ⟨d, h2, hl, hw⟩)
  · rintro (hm | hm | ⟨d, hd, hl, hw⟩)
    · exact Or.inl (List.mem_append.mpr (Or.inl (List.mem_reverse.mpr hm)))
    · exact Or.inl (List.mem_append.mpr (Or.inr hm))
    · exact Or.inr ⟨d, List.mem_append.mpr (Or.inr hd), hl, hw⟩

lemma lookupG_filter_ne (t : Gen) (c d : Coordinate) (hcd : ¬ c = d) :
    lookupG (t.filter (fun p => decide (p.1 ≠ c))) d = lookupG t d := by
  simp only [ne_eq, decide_not]
  induction t with
  | nil => rfl
  | cons p t ih =>
    obtain ⟨k, w⟩ := p
    rw [List.filter_cons]
    by_cases hk : k = c
    · subst hk
      simp [lookupG, ih, fun he : k = d => hcd he]
    · simp [lookupG, hk, ih]

lemma lookupG_insertG (g : Gen) (c : Coordinate) (v : Nat) (d : Coordinate) :
    lookupG (insertG g c v) d = if c = d then some v else lookupG g d := by
  unfold insertG
  by_cases hcd : c = d
  · simp [lookupG, hcd]
  · simp only [lookupG, if_neg hcd]
    exact lookupG_filter_ne g c d hcd

lemma runTickLoop_cons_abort {rt : Runtime} {coord : Coordinate}
    {rest : List Coordinate} {next : Gen}
    (h : processCell rt coord = none) :
    runTickLoop rt (coord :: rest) next = none := by
  rw [runTickLoop]
  split
  · rfl
  next v w heq => rw [h] at heq; cases heq
  next w heq => rw [h] at heq; cases heq

lemma runTickLoop_cons_insert {rt : Runtime} {coord : Coordinate}
    {rest : List Coordinate} {next : Gen} {v : Nat} {wake : List Coordinate}
    (h : processCell rt coord = some (some v, wake)) :
    runTickLoop rt (coord :: rest) next
      = runTickLoop rt (wake.reverse ++ rest) (insertG next coord v) := by
  rw [runTickLoop]
  split
  next heq => rw [h] at heq; cases heq
  next v' w' heq =>
    rw [h] at heq
    injection heq with heq
    injection heq with h1 h2
    injection h1 with h1
    subst h1
    subst h2
    rfl
  next w' heq =>
    rw [h] at heq
    injection heq with heq
    injection heq with h1 h2
    cases h1

lemma runTickLoop_cons_skip {rt : Runtime} {coord : Coordinate}
    {rest : List Coordinate} {next : Gen} {wake : List Coordinate}
    (h : processCell rt coord = some (none, wake)) :
    runTickLoop rt (coord :: rest) next
      = runTickLoop rt (wake.reverse ++ rest) next := by
  rw [runTickLoop]
  split
  next heq => rw [h] at heq; cases heq
  next v' w' heq =>
    rw [h] at heq
    injection heq with heq
    injection heq with h1 h2
    cases h1
  next w' heq =>
    rw [h] at heq
    injection heq with heq
    injection heq with h1 h2
    subst h2
    rfl

/-- The central synchronous-update lemma: if the worklist loop completes,
then the lookup of every coordinate in the produced buffer is determined
by `stepValue` — a pure function of the prior generation — for the
coordinates in the schedule's closure, and untouched otherwise. -/
lemma runTickLoop_char (rt : Runtime) (sched : List Coordinate) (next : Gen) :
    ∀ g, runTickLoop rt sched next = some g →
    ∀ c,
      (c ∈ schedClosure rt sched →
        ∃ r, stepValue rt c = some r ∧
          lookupG g c = (match r with
                         | some v => some v
                         | none => lookupG next c)) ∧
      (c ∉ schedClosure rt sched → lookupG g c = lookupG next c) := by
  induction sched, next using runTickLoop.induct rt with
  | case1 next =>
      intro g hg c
      simp only [runTickLoop] at hg
      injection hg with hg
      subst hg
      constructor
      · intro hc
        simp [schedClosure] at hc
      · intro _
        rfl
  | case2 coord rest next h =>
      intro g hg
      rw [runTickLoop_cons_abort h] at hg
      cases hg
  | case3 coord rest next v wake h ih =>
      obtain ⟨hstep, hwake⟩ := processCell_stepValue h
      have hdead : ∀ m ∈ wake, lookupG rt.current_tick m = none :=
        processCell_wake h
      intro g hg
      rw [runTickLoop_cons_insert h] at hg
      intro c
      have ihc := ih g hg c
      constructor
      · intro hc
        by_cases hmem : c ∈ schedClosure rt (wake.reverse ++ rest)
        · obtain ⟨r, hr, hlook⟩ := ihc.1 hmem
          cases r with
          | some u => exact ⟨some u, hr, hlook⟩
          | none =>
              have hcoord : c ≠ coord := by
                intro he
                subst he
                rw [hstep] at hr
                simp at hr
              refine ⟨none, hr, ?_⟩
              rw [hlook, lookupG_insertG, if_neg (fun he => hcoord he.symm)]
        · have hceq : c = coord := by
            rcases schedClosure_cons.mp hc with h1 | h2 | h3
            · exact h1
            · rw [hwake] at h2
              exact absurd ((schedClosure_shift hdead).mpr (Or.inl h2)) hmem
            · exact absurd ((schedClosure_shift hdead).mpr (Or.inr h3)) hmem
          subst hceq
          have hB := ihc.2 hmem
          refine ⟨some v, hstep, ?_⟩
          rw [hB, lookupG_insertG, if_pos rfl]
      · intro hc
        have hmem : c ∉ schedClosure rt (wake.reverse ++ rest) := by
          intro hm
          rcases (schedClosure_shift hdead).mp hm with h1 | h2
          · exact hc (schedClosure_cons.mpr (Or.inr (Or.inl (hwake ▸ h1))))
          · exact hc (schedClosure_cons.mpr (Or.inr (Or.inr h2)))
        have hcoord : c ≠ coord := by
          intro he
          exact hc (schedClosure_cons.mpr (Or.inl he))
        rw [ihc.2 hmem, lookupG_insertG, if_neg (fun he => hcoord he.symm)]
  | case4 coord rest next wake h ih =>
      obtain ⟨hstep, hwake⟩ := processCell_stepValue h
      have hdead : ∀ m ∈ wake, lookupG rt.current_tick m = none :=
        processCell_wake h
      intro g hg
      rw [runTickLoop_cons_skip h] at hg
      intro c
      have ihc := ih g hg c
      constructor
      · intro hc
        by_cases hmem : c ∈ schedClosure rt (wake.reverse ++ rest)
        · exact ihc.1 hmem
        · have hceq : c = coord := by
            rcases schedClosure_cons.mp hc with h1 | h2 | h3
            · exact h1
            · rw [hwake] at h2
              exact absurd ((schedClosure_shift hdead).mpr (Or.inl h2)) hmem
            · exact absurd ((schedClosure_shift hdead).mpr (Or.inr h3)) hmem
          subst hceq
          exact ⟨none, hstep, ihc.2 hmem⟩
      · intro hc
        have hmem : c ∉ schedClosure rt (wake.reverse ++ rest) := by
          intro hm
          rcases (schedClosure_shift hdead).mp hm with h1 | h2
          · exact hc (schedClosure_cons.mpr (Or.inr (Or.inl (hwake ▸ h1))))
          · exact hc (schedClosure_cons.mpr (Or.inr (Or.inr h2)))
        exact ihc.2 hmem

lemma keys_live {g : Gen} {d : Coordinate} (hd : d ∈ keysG g) :
    (lookupG g d).isSome := by
  induction g with
  | nil => simp [keysG] at hd
  | cons p t ih =>
    obtain ⟨k, w⟩ := p
    rcases List.mem_cons.mp hd with h1 | h2
    · simp [lookupG, h1]
    · by_cases hk : k = d
      · simp [lookupG, hk]
      · simp only [lookupG, if_neg hk]
        exact ih h2

lemma lookupG_none_not_mem {g : Gen} {d : Coordinate}
    (hd : lookupG g d = none) : d ∉ keysG g := by
  intro hmem
  have := keys_live hmem
  rw [hd] at this
  simp at this

lemma schedClosure_keys (rt : Runtime) :
    schedClosure rt (keysG rt.current_tick) = processedClosure rt := by
  unfold schedClosure processedClosure
  rw [List.filter_eq_self.mpr]
  intro d hd
  simpa using keys_live hd

lemma runTick_inv {rt rt' : Runtime} (h : runTick rt = some rt') :
    ∃ g, runTickLoop rt (keysG rt.current_tick) [] = some g ∧
      rt' = { rt with current_tick := g, next_tick := [], tick := rt.tick + 1 } := by
  unfold runTick at h
  cases hg : runTickLoop rt (keysG rt.current_tick) [] with
  | none => rw [hg] at h; cases h
  | some g =>
    rw [hg] at h
    injection h with h
    exact ⟨g, rfl, h.symm⟩

/-! Under a finite boundary (`Void`, `Wrap`, `Static`) the neighbor loop
never pushes onto the schedule: the push sits in the `!is_finite` branch. -/

lemma visitDefaultCase_wake_finite {rt : Runtime} {coord n : Coordinate} {s w}
    (hfin : rt.boundary.is_finite = true)
    (h : visitDefaultCase rt coord n = some (s, w)) : w = [] := by
  unfold visitDefaultCase at h
  cases hn : lookupG rt.current_tick n with
  | some v => simp [hn] at h; simp [h.2]
  | none =>
    simp only [hn, hfin, if_true] at h
    simp at h
    simp [h.2]

lemma visitStaticCheck_wake_finite {rt : Runtime} {coord n : Coordinate} {s w}
    (hfin : rt.boundary.is_finite = true)
    (h : visitStaticCheck rt coord n = some (s, w)) : w = [] := by
  unfold visitStaticCheck at h
  cases hs : rt.static_state with
  | none => simp only [hs] at h; exact visitDefaultCase_wake_finite hfin h
  | some v =>
    simp only [hs] at h
    cases hb : rt.initial_dimensions.boundary n with
    | none => simp [hb] at h
    | some onEdge =>
      simp only [hb, Option.bind_eq_bind, Option.some_bind] at h
      split at h
      · simp at h; simp [h.2]
      · exact visitDefaultCase_wake_finite hfin h

lemma visitNeighbor_wake_finite {rt : Runtime} {coord n : Coordinate} {s w}
    (hfin : rt.boundary.is_finite = true)
    (h : visitNeighbor rt coord n = some (s, w)) : w = [] := by
  unfold visitNeighbor at h
  rw [hfin] at h
  rw [if_pos rfl] at h
  cases hin : rt.initial_dimensions.contains n with
  | none => simp [hin] at h
  | some inside =>
    simp only [hin, Option.bind_eq_bind, Option.some_bind] at h
    split at h
    · exact visitStaticCheck_wake_finite hfin h
    · simp at h; simp [h.2]

lemma visitAll_wake_finite {rt : Runtime} {coord : Coordinate}
    (hfin : rt.boundary.is_finite = true) :
    ∀ {ns : List Coordinate} {s w},
      visitAll rt coord ns = some (s, w) → w = [] := by
  intro ns
  induction ns with
  | nil => intro s w h; simp [visitAll] at h; simp [h.2]
  | cons n rest ih =>
    intro s w h
    simp only [visitAll, Option.bind_eq_bind] at h
    cases h1 : visitNeighbor rt coord n with
    | none => simp [h1] at h
    | some p1 =>
      cases h2 : visitAll rt coord rest with
      | none => simp [h1, h2] at h
      | some p2 =>
        obtain ⟨s1, w1⟩ := p1
        obtain ⟨s2, w2⟩ := p2
        simp [h1, h2] at h
        rw [← h.2, visitNeighbor_wake_finite hfin h1, ih h2]
        simp

lemma processCell_wake_finite {rt : Runtime} {coord : Coordinate} {i w}
    (hfin : rt.boundary.is_finite = true)
    (h : processCell rt coord = some (i, w)) : w = [] := by
  unfold processCell at h
  cases hns : neighbors rt.neighborhood coord with
  | none => simp [hns] at h
  | some ns =>
    simp only [hns, Option.bind_eq_bind, Option.some_bind] at h
    cases hva : visitAll rt coord ns with
    | none => simp [hva] at h
    | some p =>
      obtain ⟨states, wake⟩ := p
      simp only [hva, Option.some_bind] at h
      have hw : w = wake := by
        cases hst : (match lookupG rt.current_tick coord with
                     | some s => some s
                     | none => rt.default_state) with
        | none => simp [hst] at h
        | some state =>
          simp only [hst, Option.some_bind] at h
          cases hres : rulesEvaluate rt.rules state states with
          | none => simp [hres] at h
          | some res => simp [hres] at h; exact h.2.symm
      rw [hw]
      exact visitAll_wake_finite hfin hva

lemma wakeOf_finite {rt : Runtime} {coord : Coordinate}
    (hfin : rt.boundary.is_finite = true) : wakeOf rt coord = [] := by
  unfold wakeOf
  cases h : processCell rt coord with
  | none => rfl
  | some p =>
    obtain ⟨i, w⟩ := p
    exact processCell_wake_finite hfin h

lemma mem_processedClosure_finite {rt : Runtime} {c : Coordinate}
    (hfin : rt.boundary.is_finite = true) (hc : c ∈ processedClosure rt) :
    c ∈ keysG rt.current_tick := by
  unfold processedClosure at hc
  rcases List.mem_append.mp hc with h1 | h2
  · exact h1
  · obtain ⟨d, _, hw⟩ := List.mem_flatMap.mp h2
    rw [wakeOf_finite hfin] at hw
    cases hw

/-! The wake of a cell is a subset of its neighbor list. -/

lemma visitNeighbor_wake_sub {rt : Runtime} {coord n : Coordinate} {s w}
    (h : visitNeighbor rt coord n = some (s, w)) :
    ∀ m ∈ w, m = n := by
  have core : ∀ {s' w'}, visitDefaultCase rt coord n = some (s', w') →
      ∀ m ∈ w', m = n := by
    intro s' w' hd m hm
    unfold visitDefaultCase at hd
    cases hn : lookupG rt.current_tick n with
    | some v => simp [hn] at hd; rw [hd.2] at hm; cases hm
    | none =>
      simp only [hn] at hd
      split at hd
      · simp at hd; rw [hd.2] at hm; cases hm
      · cases hdef : rt.default_state with
        | none => simp [hdef] at hd
        | some d =>
          simp [hdef] at hd
          rw [← hd.2] at hm
          split at hm
          · simpa using hm
          · cases hm
  have core2 : ∀ {s' w'}, visitStaticCheck rt coord n = some (s', w') →
      ∀ m ∈ w', m = n := by
    intro s' w' hd
    unfold visitStaticCheck at hd
    cases hs : rt.static_state with
    | none => simp only [hs] at hd; exact core hd
    | some v =>
      simp only [hs] at hd
      cases hb : rt.initial_dimensions.boundary n with
      | none => simp [hb] at hd
      | some onEdge =>
        simp only [hb, Option.bind_eq_bind, Option.some_bind] at hd
        split at hd
        · simp at hd; intro m hm; rw [hd.2] at hm; cases hm
        · exact core hd
  unfold visitNeighbor at h
  split at h
  · cases hin : rt.initial_dimensions.contains n with
    | none => simp [hin] at h
    | some inside =>
      simp only [hin, Option.bind_eq_bind, Option.some_bind] at h
      split at h
      · exact core2 h
      · simp at h; intro m hm; rw [h.2] at hm; cases hm
  · exact core2 h

lemma visitAll_wake_sub {rt : Runtime} {coord : Coordinate} :
    ∀ {ns : List Coordinate} {s w},
      visitAll rt coord ns = some (s, w) → ∀ m ∈ w, m ∈ ns := by
  intro ns
  induction ns with
  | nil => intro s w h; simp [visitAll] at h; simp [h.2]
  | cons n rest ih =>
    intro s w h
    simp only [visitAll, Option.bind_eq_bind] at h
    cases h1 : visitNeighbor rt coord n with
    | none => simp [h1] at h
    | some p1 =>
      cases h2 : visitAll rt coord rest with
      | none => simp [h1, h2] at h
      | some p2 =>
        obtain ⟨s1, w1⟩ := p1
        obtain ⟨s2, w2⟩ := p2
        simp [h1, h2] at h
        intro m hm
        rw [← h.2] at hm
        rcases List.mem_append.mp hm with hm1 | hm2
        · exact List.mem_cons.mpr (Or.inl (visitNeighbor_wake_sub h1 m hm1))
        · exact List.mem_cons.mpr (Or.inr (ih h2 m hm2))

lemma processCell_wake_sub {rt : Runtime} {coord : Coordinate} {i w}
    (h : processCell rt coord = some (i, w)) :
    ∃ ns, neighbors rt.neighborhood coord = some ns ∧ ∀ m ∈ w, m ∈ ns := by
  unfold processCell at h
  cases hns : neighbors rt.neighborhood coord with
  | none => simp [hns] at h
  | some ns =>
    refine ⟨ns, rfl, ?_⟩
    simp only [hns, Option.bind_eq_bind, Option.some_bind] at h
    cases hva : visitAll rt coord ns with
    | none => simp [hva] at h
    | some p =>
      obtain ⟨states, wake⟩ := p
      simp only [hva, Option.some_bind] at h
      have hw : w = wake := by
        cases hst : (match lookupG rt.current_tick coord with
                     | some s => some s
                     | none => rt.default_state) with
        | none => simp [hst] at h
        | some state =>
          simp only [hst, Option.some_bind] at h
          cases hres : rulesEvaluate rt.rules state states with
          | none => simp [hres] at h
          | some res => simp [hres] at h; exact h.2.symm
      rw [hw]
      exact visitAll_wake_sub hva

lemma wakeOf_sub {rt : Runtime} {d m : Coordinate} (hm : m ∈ wakeOf rt d) :
    ∃ ns, neighbors rt.neighborhood d = some ns ∧ m ∈ ns := by
  unfold wakeOf at hm
  cases h : processCell rt d with
  | none => simp [h] at hm
  | some p =>
    obtain ⟨i, w⟩ := p
    simp only [h] at hm
    obtain ⟨ns, hns, hsub⟩ := processCell_wake_sub h
    exact ⟨ns, hns, hsub m hm⟩

/-! `run_tick` consults the boundary block only through `is_finite` (and
the `static_state` field fixed at construction), so two runtimes that
differ only in boundary blocks with equal `is_finite` behave
identically. -/

lemma visitDefaultCase_boundary_congr (rt : Runtime) (b : BoundaryBlock)
    (hb : b.is_finite = rt.boundary.is_finite) (coord n : Coordinate) :
    visitDefaultCase { rt with boundary := b } coord n
      = visitDefaultCase rt coord n := by
  unfold visitDefaultCase
  simp only [hb]

lemma visitStaticCheck_boundary_congr (rt : Runtime) (b : BoundaryBlock)
    (hb : b.is_finite = rt.boundary.is_finite) (coord n : Coordinate) :
    visitStaticCheck { rt with boundary := b } coord n
      = visitStaticCheck rt coord n := by
  unfold visitStaticCheck
  simp only [visitDefaultCase_boundary_congr rt b hb]

lemma visitNeighbor_boundary_congr (rt : Runtime) (b : BoundaryBlock)
    (hb : b.is_finite = rt.boundary.is_finite) (coord n : Coordinate) :
    visitNeighbor { rt with boundary := b } coord n
      = visitNeighbor rt coord n := by
  unfold visitNeighbor
  simp only [hb, visitStaticCheck_boundary_congr rt b hb]

lemma visitAll_boundary_congr (rt : Runtime) (b : BoundaryBlock)
    (hb : b.is_finite = rt.boundary.is_finite) (coord : Coordinate) :
    ∀ ns, visitAll { rt with boundary := b } coord ns = visitAll rt coord ns := by
  intro ns
  induction ns with
  | nil => rfl
  | cons n rest ih =>
    simp only [visitAll, visitNeighbor_boundary_congr rt b hb, ih]

lemma processCell_boundary_congr (rt : Runtime) (b : BoundaryBlock)
    (hb : b.is_finite = rt.boundary.is_finite) (coord : Coordinate) :
    processCell { rt with boundary := b } coord = processCell rt coord := by
  unfold processCell
  simp only [visitAll_boundary_congr rt b hb]

lemma runTickLoop_nil (rt : Runtime) (next : Gen) :
    runTickLoop rt [] next = some next := by
  simp only [runTickLoop]

lemma runTickLoop_boundary_congr (rt : Runtime) (b : BoundaryBlock)
    (hb : b.is_finite = rt.boundary.is_finite) :
    ∀ sched next,
      runTickLoop { rt with boundary := b } sched next
        = runTickLoop rt sched next := by
  intro sched next
  induction sched, next using runTickLoop.induct rt with
  | case1 next => rw [runTickLoop_nil, runTickLoop_nil]
  | case2 coord rest next h =>
      have h' : processCell { rt with boundary := b } coord = none := by
        rw [processCell_boundary_congr rt b hb, h]
      rw [runTickLoop_cons_abort h', runTickLoop_cons_abort h]
  | case3 coord rest next v wake h ih =>
      have h' : processCell { rt with boundary := b } coord
          = some (some v, wake) := by
        rw [processCell_boundary_congr rt b hb, h]
      rw [runTickLoop_cons_insert h', runTickLoop_cons_insert h, ih]
  | case4 coord rest next wake h ih =>
      have h' : processCell { rt with boundary := b } coord
          = some (none, wake) := by
        rw [processCell_boundary_congr rt b hb, h]
      rw [runTickLoop_cons_skip h', runTickLoop_cons_skip h, ih]

/-- The observable outcome of one tick: the published generation, the
fresh `next` buffer and the tick counter. -/
def tickOutcome (rt : Runtime) : Option (Gen × Gen × Nat) :=
  (runTick rt).map (fun r => (r.current_tick, r.next_tick, r.tick))

lemma tickOutcome_boundary_congr (rt : Runtime) (b : BoundaryBlock)
    (hb : b.is_finite = rt.boundary.is_finite) :
    tickOutcome { rt with boundary := b } = tickOutcome rt := by
  unfold tickOutcome runTick
  rw [runTickLoop_boundary_congr rt b hb]
  cases runTickLoop rt (keysG rt.current_tick) [] with
  | none => rfl
  | some g => rfl

end Runtime

/-! ### `LoafType` and the checked evaluator (`src/runtime/state.rs`)

Unlike `RuleValue`, the `LoafType` arithmetic uses `checked_add` /
`checked_sub` / `checked_mul` with `expect`, so overflow always panics,
in every build profile.  Its `Into<bool>` performs no coercion and panics
on an integer.  The derived `Ord` has `Boolean` as the first variant. -/

inductive LoafType where
  | Boolean (b : Bool)
  | Integer (n : Int)
deriving DecidableEq, Repr

/-- `isize::checked_*` succeeds exactly when the mathematical result fits
the 64-bit signed range. -/
def checkedIsize (n : Int) : Option Int :=
  if n < isizeMin ∨ isizeMax < n then none else some n

namespace LoafType

/-- `impl Add for LoafType`: `checked_add(..).expect(..)`. -/
def addL : LoafType → LoafType → Option LoafType
  | Integer a, Integer b => (checkedIsize (a + b)).map Integer
  | _, _ => none

/-- `impl Sub for LoafType`. -/
def subL : LoafType → LoafType → Option LoafType
  | Integer a, Integer b => (checkedIsize (a - b)).map Integer
  | _, _ => none

/-- `impl Mul for LoafType`. -/
def mulL : LoafType → LoafType → Option LoafType
  | Integer a, Integer b => (checkedIsize (a * b)).map Integer
  | _, _ => none

/-- `impl Div for LoafType`: explicit divide-by-zero panic, then
`checked_div(..).expect(..)` (whose only overflow is `MIN / -1`). -/
def divL : LoafType → LoafType → Option LoafType
  | Integer a, Integer b =>
      if b = 0 then none
      else if a = isizeMin ∧ b = -1 then none
      else some (Integer (Int.tdiv a b))
  | _, _ => none

/-- `Into<bool> for LoafType`: panics on a non-boolean. -/
def asBool : LoafType → Option Bool
  | Boolean b => some b
  | _ => none

/-- Derived `Ord`'s strict order (`Boolean` is the first variant). -/
def ltL : LoafType → LoafType → Bool
  | Boolean a, Boolean b => !a && b
  | Boolean _, Integer _ => true
  | Integer _, Boolean _ => false
  | Integer a, Integer b => decide (a < b)

/-- Derived `Ord`'s non-strict order. -/
def leL : LoafType → LoafType → Bool
  | Boolean a, Boolean b => !a || b
  | Boolean _, Integer _ => true
  | Integer _, Boolean _ => false
  | Integer a, Integer b => decide (a ≤ b)

end LoafType

/-- The AST of `src/runtime/state.rs`: `LoafType` constants, the census
node, and the twelve binary nodes. -/
inductive LoafExpr where
  | const (v : LoafType)
  | census (state : Nat)
  | add (lhs rhs : LoafExpr)
  | sub (lhs rhs : LoafExpr)
  | mul (lhs rhs : LoafExpr)
  | div (lhs rhs : LoafExpr)
  | gt (lhs rhs : LoafExpr)
  | gte (lhs rhs : LoafExpr)
  | lt (lhs rhs : LoafExpr)
  | lte (lhs rhs : LoafExpr)
  | eq (lhs rhs : LoafExpr)
  | neq (lhs rhs : LoafExpr)
  | and (lhs rhs : LoafExpr)
  | or (lhs rhs : LoafExpr)
deriving DecidableEq, Repr

/-- `ASTNode::evaluate` for the `LoafType` tree over a `Vec<usize>`
neighborhood (`Neighborhood::count` counts occurrences). -/
def evalLoaf : LoafExpr → List Nat → Option LoafType
  | .const v, _ => some v
  | .census s, nbhd => some (.Integer (nbhd.countP (fun x => x == s) : Nat))
  | .add l r, nbhd => do LoafType.addL (← evalLoaf l nbhd) (← evalLoaf r nbhd)
  | .sub l r, nbhd => do LoafType.subL (← evalLoaf l nbhd) (← evalLoaf r nbhd)
  | .mul l r, nbhd => do LoafType.mulL (← evalLoaf l nbhd) (← evalLoaf r nbhd)
  | .div l r, nbhd => do LoafType.divL (← evalLoaf l nbhd) (← evalLoaf r nbhd)
  | .gt l r, nbhd => do
      let a ← evalLoaf l nbhd
      let b ← evalLoaf r nbhd
      pure (.Boolean (LoafType.ltL b a))
  | .gte l r, nbhd => do
      let a ← evalLoaf l nbhd
      let b ← evalLoaf r nbhd
      pure (.Boolean (LoafType.leL b a))
  | .lt l r, nbhd => do
      let a ← evalLoaf l nbhd
      let b ← evalLoaf r nbhd
      pure (.Boolean (LoafType.ltL a b))
  | .lte l r, nbhd => do
      let a ← evalLoaf l nbhd
      let b ← evalLoaf r nbhd
      pure (.Boolean (LoafType.leL a b))
  | .eq l r, nbhd => do
      let a ← evalLoaf l nbhd
      let b ← evalLoaf r nbhd
      pure (.Boolean (decide (a = b)))
  | .neq l r, nbhd => do
      let a ← evalLoaf l nbhd
      let b ← evalLoaf r nbhd
      pure (.Boolean (decide (a ≠ b)))
  | .and l r, nbhd => do
      let ba ← (← evalLoaf l nbhd).asBool
      let bb ← (← evalLoaf r nbhd).asBool
      pure (.Boolean (ba && bb))
  | .or l r, nbhd => do
      let ba ← (← evalLoaf l nbhd).asBool
      let bb ← (← evalLoaf r nbhd).asBool
      pure (.Boolean (ba || bb))

/-! ### `Ruleset` (`src/runtime/state.rs`)

`Ruleset::new` collects `Vec<(S, (ASTRoot, S))>` into a
`HashMap<S, (ASTRoot, S)>`: one rule per from-state, the last insertion
for a key overwriting the earlier ones. -/

def RulesetT : Type := List (Nat × (LoafExpr × Nat))

/-- Lookup with last-insertion-wins semantics (`HashMap` built by
`collect`). -/
def rulesetGet : RulesetT → Nat → Option (LoafExpr × Nat)
  | [], _ => none
  | (k, v) :: rest, s =>
      match rulesetGet rest s with
      | some r => some r
      | none => if k = s then some v else none

/-- `Ruleset::transition`: `self.rules[&from_state]` panics when the
from-state has no rule; the root's value is cast with the panicking
`Into<bool>`. -/
def transitionR (rules : RulesetT) (fromS : Nat) (nbhd : List Nat) :
    Option (Option Nat) := do
  let (rule, toS) ← rulesetGet rules fromS
  let v ← evalLoaf rule nbhd
  let b ← v.asBool
  pure (if b then some toS else none)

/-! ### `FixedGrid` (`src/runtime/environment/naive.rs`) and
`SynchronousRuntime::run_tick` (`src/runtime/mod.rs`)

Generic over the coordinate type (the source is generic over
`C: Coordinate`, whose pointwise `Add` is all the environment uses). -/

def lookupL {C : Type} [DecidableEq C] : List (C × Nat) → C → Option Nat
  | [], _ => none
  | (k, v) :: rest, c => if k = c then some v else lookupL rest c

def insertL {C : Type} [DecidableEq C] (l : List (C × Nat)) (c : C) (v : Nat) :
    List (C × Nat) :=
  (c, v) :: l.filter (fun p => decide (p.1 ≠ c))

structure FixedGrid (C : Type) where
  current_tick : List (C × Nat)
  next_tick : List (C × Nat)
  neighborhood : List C

namespace FixedGrid

variable {C : Type} [DecidableEq C] [Add C]

/-- `set_state` writes only the next-tick buffer. -/
def set_state (env : FixedGrid C) (c : C) (s : Nat) : FixedGrid C :=
  { env with next_tick := insertL env.next_tick c s }

/-- `get_state` reads only the current-tick buffer. -/
def get_state (env : FixedGrid C) (c : C) : Option Nat :=
  lookupL env.current_tick c

/-- `get_neighborhood`: `None` off-grid; otherwise the states of the
offset cells, silently dropping missing ones (`filter_map`). -/
def get_neighborhood (env : FixedGrid C) (c : C) : Option (List Nat) :=
  if (lookupL env.current_tick c).isNone then none
  else some ((env.neighborhood.map (fun o => c + o)).filterMap (get_state env))

/-- `get_schedule`: the keys of the current generation. -/
def get_schedule (env : FixedGrid C) : List C :=
  env.current_tick.map Prod.fst

/-- `FixedGrid::tick`: every current entry whose key was not written into
`next` is carried over, then the buffers swap (modelled up to lookup
equivalence). -/
def tick (env : FixedGrid C) : FixedGrid C :=
  { env with
    current_tick :=
      env.next_tick ++
        env.current_tick.filter (fun p => (lookupL env.next_tick p.1).isNone),
    next_tick := [] }

end FixedGrid

/-- The loop of `SynchronousRuntime::run_tick`: the schedule is taken
once up front; `get_state`/`get_neighborhood` read `current`, which
`set_state` never touches; fired transitions go into `next` and into the
delta. Ends with `environment.tick()`. -/
def syncRunTickGo {C : Type} [DecidableEq C] [Add C] (rules : RulesetT) :
    List C → FixedGrid C → List (C × Nat) → Option (FixedGrid C × List (C × Nat))
  | [], env, delta => some (env.tick, delta)
  | cell :: rest, env, delta => do
      let state ← env.get_state cell
      let nbhd ← env.get_neighborhood cell
      let r ← transitionR rules state nbhd
      match r with
      | some s =>
          syncRunTickGo rules rest (env.set_state cell s) (insertL delta cell s)
      | none => syncRunTickGo rules rest env delta

/-- `SynchronousRuntime::run_tick`, returning the ticked environment and
the delta. -/
def syncRunTick {C : Type} [DecidableEq C] [Add C] (rules : RulesetT)
    (env : FixedGrid C) : Option (FixedGrid C × List (C × Nat)) :=
  syncRunTickGo rules env.get_schedule env []

/-! ### The state registry builder
(`src/lang/runtime/datatypes/states.rs` with the parsed block of
`src/lang/blocks/state.rs`)

The parse `Error` enum of `src/lang/parse/mod.rs` declares
`MultipleDefaultStates`, but no code path constructs it; the builder
below (`States::from_block`) returns a registry unconditionally,
overwriting `default` on every state marked with the attribute. -/

inductive ParseError where
  | SyntaxError
  | UnrepresentableNumber
  | MultipleDefinitionsForBlock
  | MultipleDefaultStates
deriving DecidableEq, Repr

inductive Attribute where
  | Default
  | Color (rgb : Option (Nat × Nat × Nat))
deriving DecidableEq, Repr

def Attribute.is_color : Attribute → Bool
  | Color _ => true
  | _ => false

def DEFAULT_COLOR : Nat × Nat × Nat := (0xff, 0xff, 0xff)

/-- The color chosen for a state: the first color attribute if any (an
unknown color keyword parsed to `Color(None)` hits the `expect` panic),
the default color otherwise. -/
def pickColor (attrs : List Attribute) : Option (Nat × Nat × Nat) :=
  match attrs.find? (fun a => a.is_color) with
  | none => some DEFAULT_COLOR
  | some (Attribute.Color (some rgb)) => some rgb
  | some (Attribute.Color none) => none
  | some Attribute.Default => none

structure States where
  num_states : Nat
  name_map : List (String × Nat)
  color_map : List (Nat × (Nat × Nat × Nat))
  default : Option Nat
deriving DecidableEq, Repr

/-- `States::from_block`: enumerate the states, assigning dense ids; a
`default` attribute simply overwrites the previously remembered default —
there is no duplicate check and no error return. -/
def States.from_block (block : List (String × List Attribute)) : Option States := do
  let res ← block.foldlM
    (fun acc entry => do
      let (nm, cm, dflt, sid) := acc
      let (name, attrs) := entry
      let dflt' := if attrs.contains Attribute.Default then some sid else dflt
      let color ← pickColor attrs
      pure (nm ++ [(name, sid)], cm ++ [(sid, color)], dflt', sid + 1))
    (([] : List (String × Nat)), ([] : List (Nat × (Nat × Nat × Nat))),
      (none : Option Nat), 0)
  pure { num_states := block.length, name_map := res.1,
         color_map := res.2.1, default := res.2.2.1 }

/-! ### Lookup lemmas for the generic association lists -/

lemma lookupL_filter_ne {C : Type} [DecidableEq C]
    (t : List (C × Nat)) (c d : C) (hcd : ¬ c = d) :
    lookupL (t.filter (fun p => decide (p.1 ≠ c))) d = lookupL t d := by
  simp only [ne_eq, decide_not]
  induction t with
  | nil => rfl
  | cons p t ih =>
    obtain ⟨k, w⟩ := p
    rw [List.filter_cons]
    by_cases hk : k = c
    · subst hk
      simp [lookupL, ih, fun he : k = d => hcd he]
    · simp [lookupL, hk, ih]

lemma lookupL_insertL {C : Type} [DecidableEq C]
    (g : List (C × Nat)) (c : C) (v : Nat) (d : C) :
    lookupL (insertL g c v) d = if c = d then some v else lookupL g d := by
  unfold insertL
  by_cases hcd : c = d
  · simp [lookupL, hcd]
  · simp only [lookupL, if_neg hcd]
    exact lookupL_filter_ne g c d hcd

lemma lookupL_append {C : Type} [DecidableEq C]
    (a b : List (C × Nat)) (d : C) :
    lookupL (a ++ b) d =
      (match lookupL a d with
       | some v => some v
       | none => lookupL b d) := by
  induction a with
  | nil => rfl
  | cons p t ih =>
    obtain ⟨k, w⟩ := p
    by_cases hk : k = d
    · simp [lookupL, hk]
    · simp only [List.cons_append, lookupL, if_neg hk]
      exact ih

lemma lookupL_filter_nextNone {C : Type} [DecidableEq C]
    (next cur : List (C × Nat)) (d : C) (hd : lookupL next d = none) :
    lookupL (cur.filter (fun p => (lookupL next p.1).isNone)) d
      = lookupL cur d := by
  induction cur with
  | nil => rfl
  | cons p t ih =>
    obtain ⟨k, w⟩ := p
    rw [List.filter_cons]
    by_cases hk : k = d
    · subst hk
      simp [lookupL, hd, ih]
    · by_cases hcond : (lookupL next k).isNone
      · simp [hcond, lookupL, hk, ih]
      · simp only [hcond, Bool.false_eq_true, if_false, ih]
        simp [lookupL, hk]

namespace FixedGrid

variable {C : Type} [DecidableEq C] [Add C]

lemma get_state_set_state (env : FixedGrid C) (c d : C) (s : Nat) :
    (env.set_state c s).get_state d = env.get_state d := rfl

lemma get_state_tick (env : FixedGrid C) (d : C) :
    (env.tick).get_state d =
      (match lookupL env.next_tick d with
       | some v => some v
       | none => env.get_state d) := by
  unfold tick get_state
  rw [lookupL_append]
  cases hn : lookupL env.next_tick d with
  | some v => rfl
  | none => rw [lookupL_filter_nextNone _ _ _ hn]

end FixedGrid

/-- Loop invariant for `SynchronousRuntime::run_tick`: the delta and the
next-tick buffer receive exactly the same insertions, while the current
generation is never written. -/
lemma syncRunTickGo_char {C : Type} [DecidableEq C] [Add C] (rules : RulesetT) :
    ∀ (sched : List C) (env : FixedGrid C) (delta : List (C × Nat))
      (env' : FixedGrid C) (delta' : List (C × Nat)),
      syncRunTickGo rules sched env delta = some (env', delta') →
      (∀ c, lookupL delta c = lookupL env.next_tick c) →
      ∃ envF : FixedGrid C, env' = envF.tick ∧
        envF.current_tick = env.current_tick ∧
        (∀ c, lookupL delta' c = lookupL envF.next_tick c) := by
  intro sched
  induction sched with
  | nil =>
    intro env delta env' delta' h hinv
    simp only [syncRunTickGo] at h
    injection h with h
    injection h with h1 h2
    exact ⟨env, h1.symm, rfl, h2 ▸ hinv⟩
  | cons cell rest ih =>
    intro env delta env' delta' h hinv
    simp only [syncRunTickGo, Option.bind_eq_bind] at h
    cases hst : FixedGrid.get_state env cell with
    | none => rw [hst] at h; cases h
    | some state =>
      rw [hst] at h
      simp only [Option.some_bind] at h
      cases hnb : FixedGrid.get_neighborhood env cell with
      | none => rw [hnb] at h; cases h
      | some nbhd =>
        rw [hnb] at h
        simp only [Option.some_bind] at h
        cases htr : transitionR rules state nbhd with
        | none => rw [htr] at h; cases h
        | some r =>
          rw [htr] at h
          simp only [Option.some_bind] at h
          cases r with
          | some s =>
            obtain ⟨envF, h1, h2, h3⟩ := ih _ _ _ _ h (fun c => by
              unfold FixedGrid.set_state
              simp only
              rw [lookupL_insertL, lookupL_insertL]
              rw [hinv c])
            exact ⟨envF, h1, by rw [h2]; rfl, h3⟩
          | none =>
            exact ih _ _ _ _ h hinv

/-! ### Grouping lemma for `Rules::from_block` (`Rules::evaluate` scans
the per-from-state vector in declaration order) -/

/-- The vector the scan walks for a given from-state (empty when the
`HashMap` has no entry — `evaluate` returns "no change" either way). -/
def entriesFor (rules : RulesT) (s : Nat) : List (Nat × RuleExpr) :=
  (rulesGet rules s).getD []

lemma rulesEvaluate_entries (rules : RulesT) (s : Nat) (nbhd : List Nat) :
    rulesEvaluate rules s nbhd = scanRules (entriesFor rules s) nbhd := by
  unfold rulesEvaluate entriesFor
  cases rulesGet rules s with
  | none => rfl
  | some e => rfl

lemma entriesFor_insert (rules : RulesT) (f t : Nat) (e : RuleExpr) (s : Nat) :
    entriesFor (rulesInsertRule rules f t e) s =
      if f = s then entriesFor rules s ++ [(t, e)] else entriesFor rules s := by
  induction rules with
  | nil =>
    by_cases hf : f = s
    · simp [entriesFor, rulesInsertRule, rulesGet, hf]
    · simp [entriesFor, rulesInsertRule, rulesGet, hf]
  | cons p rest ih =>
    obtain ⟨k, v⟩ := p
    unfold rulesInsertRule
    by_cases hk : k = f
    · subst hk
      by_cases hs : k = s
      · subst hs
        simp [entriesFor, rulesGet]
      · simp [entriesFor, rulesGet, hs]
    · simp only [if_neg hk]
      by_cases hs : k = s
      · subst hs
        have hf : ¬ f = k := fun h => hk h.symm
        simp [entriesFor, rulesGet, if_neg hf]
      · simp only [entriesFor, rulesGet, if_neg hs]
        exact ih

lemma entriesFor_fromBlock_aux (block : List TransitionRule) (s : Nat) :
    ∀ acc : RulesT,
      entriesFor
        (block.foldl
          (fun a r => rulesInsertRule a r.fromState r.toState r.root) acc) s
        = entriesFor acc s ++
            ((block.filter (fun r => r.fromState == s)).map
              (fun r => (r.toState, r.root))) := by
  induction block with
  | nil => intro acc; simp
  | cons r bl ih =>
    intro acc
    rw [List.foldl_cons, ih, entriesFor_insert]
    rw [List.filter_cons]
    by_cases hr : r.fromState = s
    · simp [hr, List.append_assoc]
    · simp [hr]

lemma entriesFor_fromBlock (block : List TransitionRule) (s : Nat) :
    entriesFor (rulesFromBlock block) s =
      (block.filter (fun r => r.fromState == s)).map
        (fun r => (r.toState, r.root)) := by
  unfold rulesFromBlock
  rw [entriesFor_fromBlock_aux]
  simp [entriesFor, rulesGet]

/-- Modelled from the spec (§4.5 Transition selection): scan the declared
rules in declaration order; the first rule for this from-state whose
expression coerces to true fires and returns its to-state; otherwise the
result is "no change". Used only to compare the claim against the
implementation's grouped table. -/
def firstMatchSpec : List TransitionRule → Nat → List Nat → Option (Option Nat)
  | [], _, _ => some none
  | r :: rest, state, nbhd =>
      if r.fromState = state then do
        let v ← evalRule r.root nbhd
        if v.toBool then pure (some r.toState) else firstMatchSpec rest state nbhd
      else firstMatchSpec rest state nbhd

/-! ### Modelled from the spec: the Wrap boundary's torus mapping
(`spec.md` §4.7).  The transition engine in the source implements no such
mapping (it only distinguishes finite from infinite); these definitions
exist solely to compare the claim with the code. -/

/-- Modelled from the spec: wrap one axis value into the inclusive bound
by reducing modulo the bound's extent. -/
def wrapAxis (b : Bound) (x : Int) : Int :=
  b.1 + (x - b.1) % (b.2 - b.1 + 1)

/-- Modelled from the spec: the torus mapping of a coordinate into
`initialBounds`, axis by axis. -/
def wrapCoord : DimensionBounds → Coordinate → Option Coordinate
  | .d1 xb, .c1 x => some (.c1 (wrapAxis xb x))
  | .d2 xb yb, .c2 x y => some (.c2 (wrapAxis xb x) (wrapAxis yb y))
  | .d3 xb yb zb, .c3 x y z =>
      some (.c3 (wrapAxis xb x) (wrapAxis yb y) (wrapAxis zb z))
  | _, _ => none

namespace Runtime

/-- Under a finite boundary a cell absent from the current generation is
never processed, hence never written into the published buffer. -/
lemma runTick_dead_finite {rt rt' : Runtime}
    (hfin : rt.boundary.is_finite = true) (h : runTick rt = some rt')
    {c : Coordinate} (hc : lookupG rt.current_tick c = none) :
    lookupG rt'.current_tick c = none := by
  obtain ⟨g, hloop, hrt'⟩ := runTick_inv h
  subst hrt'
  have hnot : c ∉ schedClosure rt (keysG rt.current_tick) := by
    rw [schedClosure_keys]
    intro hmem
    exact lookupG_none_not_mem hc (mem_processedClosure_finite hfin hmem)
  exact (runTickLoop_char rt _ [] g hloop c).2 hnot

end Runtime

/-! ### Concrete instances used by the claim theorems and witnesses -/

/-- The runtime of the repo's `runtime_oscillate_single_cell_1d` test:
one cell in state `A = 0`, Void boundary, rule `A → B if 2 > 1`, empty
neighborhood. -/
def rtOsc : Runtime :=
  { current_tick := [(Coordinate.c1 0, 0)]
    next_tick := []
    initial_dimensions := .d1 (0, 0)
    boundary := .void
    static_state := none
    default_state := none
    rules := rulesFromBlock [⟨0, 1, .gt (.num 2) (.num 1)⟩]
    neighborhood := []
    tick := 0 }

/-- The expected state of `rtOsc` after one tick. -/
def rtOsc' : Runtime :=
  { rtOsc with current_tick := [(Coordinate.c1 0, 1)], tick := 1 }

/-- An Infinite-boundary 1D runtime (the repo's
`runtime_propogate_infinite_boundary_1d` test): default `A = 0`, seed
`B = 1` at the origin, rule `A → B if census(A) ≥ 1`, neighbors at
`x ± 1`. -/
def rtInf : Runtime :=
  { current_tick := [(Coordinate.c1 0, 1)]
    next_tick := []
    initial_dimensions := .d1 (-5, 5)
    boundary := .infinite
    static_state := none
    default_state := some 0
    rules := rulesFromBlock [⟨0, 1, .gte (.census 0) (.num 1)⟩]
    neighborhood := [.undirectedEdge .X 1]
    tick := 0 }

/-- A Wrap-boundary runtime on the line `[0, 1]` with two live cells. -/
def rtWrap : Runtime :=
  { current_tick := [(Coordinate.c1 0, 0), (Coordinate.c1 1, 1)]
    next_tick := []
    initial_dimensions := .d1 (0, 1)
    boundary := .wrap
    static_state := none
    default_state := none
    rules := rulesFromBlock []
    neighborhood := [.undirectedEdge .X 1]
    tick := 0 }

/-- A Static-boundary runtime whose only live cell sits on the edge of
the bounds `[-1, 1]`, in state `B = 1`, with the always-firing rule
`B → A`. The static state is `A = 0`. -/
def rtStatic : Runtime :=
  { current_tick := [(Coordinate.c1 1, 1)]
    next_tick := []
    initial_dimensions := .d1 (-1, 1)
    boundary := .staticb (some "A")
    static_state := some 0
    default_state := none
    rules := rulesFromBlock [⟨1, 0, .gt (.num 2) (.num 1)⟩]
    neighborhood := []
    tick := 0 }

/-- The state of `rtStatic` after one tick: the edge cell has changed. -/
def rtStatic' : Runtime :=
  { rtStatic with current_tick := [(Coordinate.c1 1, 0)], tick := 1 }

/-- A Void-boundary runtime with default state `7`, used to show that
`get_state` ignores bounds and boundary. -/
def rtVoidDefault : Runtime :=
  { current_tick := []
    next_tick := []
    initial_dimensions := .d1 (0, 0)
    boundary := .void
    static_state := none
    default_state := some 7
    rules := rulesFromBlock []
    neighborhood := []
    tick := 0 }

/-- One-cell `FixedGrid` over integer coordinates. -/
def exEnv : FixedGrid Int :=
  { current_tick := [(0, 0)], next_tick := [], neighborhood := [] }

/-- The ruleset `0 → 0 if true`: it always fires without changing the
state. -/
def exRules : RulesetT := [(0, (.const (.Boolean true), 0))]

/-- A two-cell `FixedGrid` with a pending write to cell `0`. -/
def exEnv2 : FixedGrid Int :=
  { current_tick := [(0, 0), (1, 5)], next_tick := [(0, 7)], neighborhood := [] }

/-! ### Claim theorems -/

/-- C1 (Synchronous transition): whenever `Runtime::run_tick` completes,
the generation it publishes is exactly the one obtained by computing, for
every processed cell independently, its next state (`stepValue`, a pure
function of the unchanged prior generation `current_tick`) and then
swapping the buffers: processed cells hold their independently computed
value (absent when it is the suppressed default), unprocessed coordinates
are absent, the next-tick buffer is reset and the tick counter
incremented. All reads inside the loop target `current_tick`, all writes
target `next_tick`. -/
theorem run_tick_synchronous (rt rt' : Runtime)
    (h : Runtime.runTick rt = some rt') :
    (∀ c ∈ Runtime.processedClosure rt,
        ∃ r, Runtime.stepValue rt c = some r ∧ lookupG rt'.current_tick c = r)
  ∧ (∀ c, c ∉ Runtime.processedClosure rt → lookupG rt'.current_tick c = none)
  ∧ rt'.next_tick = [] ∧ rt'.tick = rt.tick + 1 := by
  obtain ⟨g, hloop, hrt'⟩ := Runtime.runTick_inv h
  subst hrt'
  refine ⟨?_, ?_, rfl, rfl⟩
  · intro c hc
    rw [← Runtime.schedClosure_keys] at hc
    obtain ⟨r, hr, hlook⟩ := (Runtime.runTickLoop_char rt _ [] g hloop c).1 hc
    refine ⟨r, hr, ?_⟩
    cases r with
    | some v => exact hlook
    | none => exact hlook
  · intro c hc
    rw [← Runtime.schedClosure_keys] at hc
    exact (Runtime.runTickLoop_char rt _ [] g hloop c).2 hc

/-- Witness for C1 at the repo's own single-cell oscillation test. -/
theorem run_tick_synchronous_witness :
    Runtime.runTick rtOsc = some rtOsc' ∧
    lookupG rtOsc'.current_tick (Coordinate.c1 0) = some 1 := by
  have hpc : Runtime.processCell rtOsc (Coordinate.c1 0) = some (some 1, []) := by
    decide
  have hl : Runtime.runTickLoop rtOsc [Coordinate.c1 0] []
      = some [(Coordinate.c1 0, 1)] := by
    rw [Runtime.runTickLoop_cons_insert hpc]
    exact Runtime.runTickLoop_nil rtOsc _
  have h : Runtime.runTick rtOsc = some rtOsc' := by
    unfold Runtime.runTick
    rw [show keysG rtOsc.current_tick = [Coordinate.c1 0] from rfl, hl]
    rfl
  refine ⟨h, ?_⟩
  obtain ⟨hA, _, _⟩ := run_tick_synchronous rtOsc rtOsc' h
  obtain ⟨r, hr, hlook⟩ := hA (Coordinate.c1 0) (by decide)
  have hsv : Runtime.stepValue rtOsc (Coordinate.c1 0) = some (some 1) := by decide
  rw [hsv] at hr
  injection hr with hr
  rw [← hr] at hlook
  exact hlook

/-- C2 (Infinite-boundary expansion guard): every coordinate the tick
processes — a member of `processedClosure`, the very set the loop is
proved to cover in the C1 theorem — is either a cell of the prior
generation or a neighbor of one: newly awakened cells never awaken
further cells within the tick. The worklist itself terminates by
construction: `runTickLoop` is a total function, its well-founded measure
being `(live entries, schedule length)`. -/
theorem infinite_guard_one_ring (rt : Runtime)
    (hb : rt.boundary = BoundaryBlock.infinite)
    (c : Coordinate) (hc : c ∈ Runtime.processedClosure rt) :
    (lookupG rt.current_tick c).isSome = true ∨
      ∃ d ns, (lookupG rt.current_tick d).isSome = true ∧
        neighbors rt.neighborhood d = some ns ∧ c ∈ ns := by
  unfold Runtime.processedClosure at hc
  rcases List.mem_append.mp hc with h1 | h2
  · exact Or.inl (Runtime.keys_live h1)
  · obtain ⟨d, hd, hw⟩ := List.mem_flatMap.mp h2
    obtain ⟨ns, hns, hmem⟩ := Runtime.wakeOf_sub hw
    exact Or.inr ⟨d, ns, Runtime.keys_live hd, hns, hmem⟩

/-- Witness for C2: in the infinite 1D runtime the awakened cell `x = 1`
is a neighbor of the live origin. -/
theorem infinite_guard_one_ring_witness :
    rtInf.boundary = BoundaryBlock.infinite ∧
    Coordinate.c1 1 ∈ Runtime.processedClosure rtInf ∧
    ((lookupG rtInf.current_tick (Coordinate.c1 1)).isSome = true ∨
      ∃ d ns, (lookupG rtInf.current_tick d).isSome = true ∧
        neighbors rtInf.neighborhood d = some ns ∧ Coordinate.c1 1 ∈ ns) := by
  have hns : neighbors rtInf.neighborhood (Coordinate.c1 0)
      = some [Coordinate.c1 (-1), Coordinate.c1 1] := by
    show neighbors [.undirectedEdge .X 1] (Coordinate.c1 0) = _
    unfold neighbors
    rw [ruleYield]
    rfl
  have hpc : Runtime.processCell rtInf (Coordinate.c1 0)
      = some (some 1, [Coordinate.c1 (-1), Coordinate.c1 1]) := by
    unfold Runtime.processCell
    rw [show rtInf.neighborhood = [.undirectedEdge .X 1] from rfl]
    rw [show neighbors [.undirectedEdge .X 1] (Coordinate.c1 0)
          = some [Coordinate.c1 (-1), Coordinate.c1 1] from hns]
    decide
  have hmem : Coordinate.c1 1 ∈ Runtime.processedClosure rtInf := by
    unfold Runtime.processedClosure
    have hw : Runtime.wakeOf rtInf (Coordinate.c1 0)
        = [Coordinate.c1 (-1), Coordinate.c1 1] := by
      unfold Runtime.wakeOf
      rw [hpc]
    rw [show keysG rtInf.current_tick = [Coordinate.c1 0] from rfl]
    simp [hw]
  exact ⟨rfl, hmem, infinite_guard_one_ring rtInf rfl _ hmem⟩

/-- C7 (code_bug): the spec requires a states block with two default
states to fail with `MultipleDefaultStates`, and the error enum even
declares that variant — but no code constructs it. `States::from_block`
happily returns a registry, the `default` field simply overwritten by the
last enumerated default-marked state. -/
theorem states_from_block_accepts_multiple_defaults :
    States.from_block [("A", [Attribute.Default]), ("B", [Attribute.Default])]
      = some { num_states := 2, name_map := [("A", 0), ("B", 1)],
               color_map := [(0, DEFAULT_COLOR), (1, DEFAULT_COLOR)],
               default := some 1 } := by
  rfl

/-- C8 counterexample: `RuleValue` addition (`src/lang/runtime/ops/rules.rs`)
is plain machine `isize +`. At `isize::MAX + 1` — mathematically out of
range, so the claim demands a fatal error — the release-profile semantics
silently wraps to `isize::MIN` and evaluation continues. -/
theorem rule_value_add_wraps_silently :
    RuleValue.addRV (.Number isizeMax) (.Number 1)
        = some (.Number isizeMin) ∧
      isizeMax < isizeMax + 1 := by
  constructor
  · decide
  · decide

/-- C8 (amended): checked arithmetic holds for the `LoafType` evaluator of
`src/runtime/state.rs`: `+`, `−`, `×` abort (in every build profile)
exactly when the mathematical result leaves the `isize` range, and return
the exact mathematical result otherwise. (The `RuleValue` operators in
`src/lang/runtime/ops/rules.rs` use unchecked `isize` arithmetic, which
wraps in release builds — see the counterexample.) -/
theorem loaf_type_checked_arithmetic (a b : Int) :
    (a + b < isizeMin ∨ isizeMax < a + b →
      LoafType.addL (.Integer a) (.Integer b) = none)
  ∧ (isizeMin ≤ a + b ∧ a + b ≤ isizeMax →
      LoafType.addL (.Integer a) (.Integer b) = some (.Integer (a + b)))
  ∧ (a - b < isizeMin ∨ isizeMax < a - b →
      LoafType.subL (.Integer a) (.Integer b) = none)
  ∧ (isizeMin ≤ a - b ∧ a - b ≤ isizeMax →
      LoafType.subL (.Integer a) (.Integer b) = some (.Integer (a - b)))
  ∧ (a * b < isizeMin ∨ isizeMax < a * b →
      LoafType.mulL (.Integer a) (.Integer b) = none)
  ∧ (isizeMin ≤ a * b ∧ a * b ≤ isizeMax →
      LoafType.mulL (.Integer a) (.Integer b) = some (.Integer (a * b))) := by
  refine ⟨?_, ?_, ?_, ?_, ?_, ?_⟩
  · intro h
    simp only [LoafType.addL, checkedIsize]
    rw [if_pos h]
    rfl
  · intro h
    simp only [LoafType.addL, checkedIsize]
    rw [if_neg (by push_neg; exact h)]
    rfl
  · intro h
    simp only [LoafType.subL, checkedIsize]
    rw [if_pos h]
    rfl
  · intro h
    simp only [LoafType.subL, checkedIsize]
    rw [if_neg (by push_neg; exact h)]
    rfl
  · intro h
    simp only [LoafType.mulL, checkedIsize]
    rw [if_pos h]
    rfl
  · intro h
    simp only [LoafType.mulL, checkedIsize]
    rw [if_neg (by push_neg; exact h)]
    rfl

/-- Witness for C8 at `isize::MAX + 1` (overflow aborts) and `2 + 3`
(in-range result exact). -/
theorem loaf_type_checked_arithmetic_witness :
    (LoafType.addL (.Integer isizeMax) (.Integer 1) = none) ∧
    (LoafType.addL (.Integer 2) (.Integer 3) = some (.Integer 5)) :=
  ⟨(loaf_type_checked_arithmetic isizeMax 1).1 (by decide),
   (loaf_type_checked_arithmetic 2 3).2.1 (by decide)⟩

/-- C9 (implicit — `get_state` ignores bounds and boundary): for a
coordinate with no explicit state, `Runtime::get_state` returns the
default state (or `none` without one) even under the Void boundary and
even outside `initialBounds`, where the spec's boundary model says no
cell exists. -/
theorem get_state_ignores_bounds_and_boundary (rt : Runtime) (c : Coordinate)
    (hb : rt.boundary = BoundaryBlock.void)
    (hout : rt.initial_dimensions.contains c = some false)
    (habs : lookupG rt.current_tick c = none) :
    Runtime.get_state rt c = rt.default_state := by
  unfold Runtime.get_state
  rw [habs]

/-- Witness for C9: the far-away coordinate `x = 5` outside the `[0, 0]`
Void bounds still reads the default state `7`. -/
theorem get_state_ignores_bounds_and_boundary_witness :
    Runtime.get_state rtVoidDefault (Coordinate.c1 5) = some 7 :=
  get_state_ignores_bounds_and_boundary rtVoidDefault (Coordinate.c1 5)
    rfl (by decide) (by decide)

/-- C3 counterexample: `Ruleset::transition` (`src/runtime/state.rs`)
violates the claimed selection semantics on both counts. With no rule for
the from-state it panics (`self.rules[&from_state]`) instead of returning
"no change"; with two rules declared for the same from-state — the first
with a true expression — it consults only the *last* declaration (the
`HashMap` built by `collect` keeps one rule per key), so nothing fires
where the claim requires the first rule's to-state. -/
theorem ruleset_transition_violates_first_match :
    transitionR [] 0 [] = none ∧
    transitionR
        [(0, (LoafExpr.const (.Boolean true), 1)),
         (0, (LoafExpr.const (.Boolean false), 2))] 0 []
      = some none := by
  constructor
  · rfl
  · rfl

/-- C3 (amended): the claimed selection semantics — scan the rules
declared for the from-state in declaration order, fire the first whose
expression coerces to true, return "no change" when none fires or when
the from-state has no rules — holds for `Rules::from_block` +
`Rules::evaluate` (`src/lang/runtime/ops/rules.rs`): grouping the block
into the per-from-state table commutes with the spec's direct scan of the
declaration list. (`Ruleset::transition` in `src/runtime/state.rs` does
not satisfy it — see the counterexample.) -/
theorem rules_evaluate_first_match (block : List TransitionRule)
    (state : Nat) (nbhd : List Nat) :
    rulesEvaluate (rulesFromBlock block) state nbhd
      = firstMatchSpec block state nbhd := by
  rw [rulesEvaluate_entries, entriesFor_fromBlock]
  induction block with
  | nil => rfl
  | cons r bl ih =>
    unfold firstMatchSpec
    rw [List.filter_cons]
    by_cases hr : r.fromState = state
    · rw [if_pos hr, if_pos (by simp [hr])]
      rw [List.map_cons]
      unfold scanRules
      cases hv : evalRule r.root nbhd with
      | none => rfl
      | some v =>
        simp only [Option.bind_eq_bind, Option.some_bind]
        by_cases ht : v.toBool
        · simp [ht]
        · simp [ht, ih]
    · rw [if_neg hr, if_neg (by simp [hr])]
      exact ih

/-- C4 counterexample: the always-firing identity rule `0 → 0 if true`
leaves the single cell unchanged, yet `SynchronousRuntime::run_tick`
reports the cell in the returned delta — the delta records fired rules,
not actual state changes. -/
theorem sync_delta_contains_unchanged_coord :
    syncRunTick exRules exEnv
        = some ({ current_tick := [((0 : Int), 0)], next_tick := [],
                  neighborhood := [] }, [((0 : Int), 0)]) ∧
    lookupL ([((0 : Int), 0)]) (0 : Int) = some 0 ∧
    FixedGrid.get_state
        ({ current_tick := [((0 : Int), 0)], next_tick := [],
           neighborhood := [] } : FixedGrid Int) 0
      = FixedGrid.get_state exEnv 0 := by
  refine ⟨rfl, rfl, rfl⟩

/-- C4 (amended): the delta returned by `SynchronousRuntime::run_tick`
is the map of scheduled cells whose rule fired, with their computed
states. It contains every coordinate whose state actually changed — a
coordinate outside the delta keeps its prior state — and a delta entry
reports the cell's new state; but a fired rule whose to-state equals the
prior state also appears, so the delta can strictly contain the changed
set (see the counterexample). -/
theorem sync_delta_superset_of_changes {C : Type} [DecidableEq C] [Add C]
    (rules : RulesetT) (env env' : FixedGrid C) (delta : List (C × Nat))
    (hnext : env.next_tick = [])
    (h : syncRunTick rules env = some (env', delta)) (c : C) :
    (lookupL delta c = none → env'.get_state c = env.get_state c) ∧
    (∀ s, lookupL delta c = some s → env'.get_state c = some s) := by
  obtain ⟨envF, h1, h2, h3⟩ :=
    syncRunTickGo_char rules env.get_schedule env [] env' delta h
      (fun d => by rw [hnext])
  subst h1
  constructor
  · intro hd
    rw [FixedGrid.get_state_tick]
    have hn : lookupL envF.next_tick c = none := by rw [← h3 c]; exact hd
    rw [hn]
    unfold FixedGrid.get_state
    rw [h2]
  · intro s hd
    rw [FixedGrid.get_state_tick]
    have hn : lookupL envF.next_tick c = some s := by rw [← h3 c]; exact hd
    rw [hn]

/-- Witness for C4: applied to the identity-rule environment; cell `0` is
in the delta with state `0`, and indeed reads `0` afterwards. -/
theorem sync_delta_superset_of_changes_witness :
    FixedGrid.get_state
        ({ current_tick := [((0 : Int), 0)], next_tick := [],
           neighborhood := [] } : FixedGrid Int) 0 = some 0 :=
  (sync_delta_superset_of_changes exRules exEnv
      ({ current_tick := [((0 : Int), 0)], next_tick := [],
         neighborhood := [] } : FixedGrid Int)
      [((0 : Int), 0)] rfl (by rfl) 0).2 0 rfl

/-- C5 counterexample: under the Wrap boundary the neighbor `x = −1` of
the origin lies outside the bounds `[0, 1]`; the claim maps it modulo the
extent to the interior cell `x = 1` (state `1`), which should contribute
to the census — but the engine classifies Wrap as finite and simply
skips the neighbor: it contributes nothing and schedules nothing. -/
theorem wrap_discards_out_of_bounds_neighbor :
    rtWrap.boundary = BoundaryBlock.wrap ∧
    rtWrap.initial_dimensions.contains (Coordinate.c1 (-1)) = some false ∧
    Runtime.visitNeighbor rtWrap (Coordinate.c1 0) (Coordinate.c1 (-1))
        = some ([], []) ∧
    wrapCoord rtWrap.initial_dimensions (Coordinate.c1 (-1))
        = some (Coordinate.c1 1) ∧
    lookupG rtWrap.current_tick (Coordinate.c1 1) = some 1 := by
  refine ⟨rfl, by decide, by decide, by decide, by decide⟩

/-- C5 (amended): the Wrap boundary is not implemented as a torus: the
engine distinguishes only finite from infinite, so a runtime with the
Wrap boundary produces, for every initial generation, exactly the same
tick outcome (published generation, next buffer, tick counter) as the
same runtime with the Void boundary — out-of-bounds neighbors are
discarded, never wrapped. -/
theorem wrap_tick_equals_void_tick (rt : Runtime)
    (hb : rt.boundary = BoundaryBlock.wrap) :
    Runtime.tickOutcome rt
      = Runtime.tickOutcome { rt with boundary := BoundaryBlock.void } := by
  have h := Runtime.tickOutcome_boundary_congr rt .void (by rw [hb]; decide)
  exact h.symm

/-- Witness for C5 at the concrete Wrap runtime. -/
theorem wrap_tick_equals_void_tick_witness :
    Runtime.tickOutcome rtWrap
      = Runtime.tickOutcome { rtWrap with boundary := BoundaryBlock.void } :=
  wrap_tick_equals_void_tick rtWrap rfl

/-- C6 counterexample: an edge cell explicitly present in the current
generation is scheduled and evaluated like any other cell. In `rtStatic`
the cell `x = 1` sits on the edge of `[-1, 1]` in state `1`, the rule
`1 → 0 if 2 > 1` fires, and after one tick the edge cell reads `0` — its
state changed, so edge cells are not invariably pinned. -/
theorem static_edge_cell_can_change :
    rtStatic.initial_dimensions.boundary (Coordinate.c1 1) = some true ∧
    Runtime.get_state rtStatic (Coordinate.c1 1) = some 1 ∧
    Runtime.runTick rtStatic = some rtStatic' ∧
    Runtime.get_state rtStatic' (Coordinate.c1 1) = some 0 := by
  have hpc : Runtime.processCell rtStatic (Coordinate.c1 1)
      = some (some 0, []) := by decide
  have hl : Runtime.runTickLoop rtStatic [Coordinate.c1 1] []
      = some [(Coordinate.c1 1, 0)] := by
    rw [Runtime.runTickLoop_cons_insert hpc]
    exact Runtime.runTickLoop_nil rtStatic _
  refine ⟨by decide, by decide, ?_, by decide⟩
  unfold Runtime.runTick
  rw [show keysG rtStatic.current_tick = [Coordinate.c1 1] from rfl, hl]
  rfl

/-- C6 (amended): under a Static boundary, every coordinate *not
explicitly present* in the current generation — in particular every
unseeded edge cell — is never processed and never written, so its lookup
stays empty and its observable state (`get_state`, i.e. the default) is
unchanged after every sequence of ticks. An edge cell that is seeded into
the generation, however, is evaluated like any interior cell and can
change (see the counterexample). -/
theorem static_unseeded_cell_invariant (rt : Runtime) (nm : Option String)
    (hb : rt.boundary = BoundaryBlock.staticb nm) (n : Nat) (rt' : Runtime)
    (h : Runtime.runTicks rt n = some rt') (c : Coordinate)
    (hc : lookupG rt.current_tick c = none) :
    lookupG rt'.current_tick c = none ∧
      Runtime.get_state rt' c = Runtime.get_state rt c := by
  have main : ∀ (k : Nat) (rt0 rt1 : Runtime),
      rt0.boundary.is_finite = true → Runtime.runTicks rt0 k = some rt1 →
      lookupG rt0.current_tick c = none →
      lookupG rt1.current_tick c = none ∧
        rt1.default_state = rt0.default_state := by
    intro k
    induction k with
    | zero =>
      intro rt0 rt1 hfin hk hc0
      unfold Runtime.runTicks at hk
      injection hk with hk
      subst hk
      exact ⟨hc0, rfl⟩
    | succ m ih =>
      intro rt0 rt1 hfin hk hc0
      unfold Runtime.runTicks at hk
      cases h1 : Runtime.runTick rt0 with
      | none => rw [h1] at hk; cases hk
      | some rtm =>
        rw [h1] at hk
        simp only [Option.bind_eq_bind, Option.some_bind] at hk
        obtain ⟨g, hloop, hrtm⟩ := Runtime.runTick_inv h1
        have hcm : lookupG rtm.current_tick c = none :=
          Runtime.runTick_dead_finite hfin h1 hc0
        have hfinm : rtm.boundary.is_finite = true := by rw [hrtm]; exact hfin
        have hdm : rtm.default_state = rt0.default_state := by rw [hrtm]
        obtain ⟨hfinal, hdfl⟩ := ih rtm rt1 hfinm hk hcm
        exact ⟨hfinal, by rw [hdfl, hdm]⟩
  have hfin : rt.boundary.is_finite = true := by rw [hb]; rfl
  obtain ⟨hfinal, hdfl⟩ := main n rt rt' hfin h hc
  refine ⟨hfinal, ?_⟩
  unfold Runtime.get_state
  rw [hfinal, hc, hdfl]

/-- Witness for C6: the unseeded edge cell `x = −1` of `rtStatic` is
still empty (and still reads no state) after three ticks. -/
theorem static_unseeded_cell_invariant_witness :
    ∃ rt' : Runtime, Runtime.runTicks rtStatic 3 = some rt' ∧
      lookupG rt'.current_tick (Coordinate.c1 (-1)) = none ∧
      Runtime.get_state rt' (Coordinate.c1 (-1))
        = Runtime.get_state rtStatic (Coordinate.c1 (-1)) := by
  have hpc : Runtime.processCell rtStatic (Coordinate.c1 1)
      = some (some 0, []) := by decide
  have hl : Runtime.runTickLoop rtStatic [Coordinate.c1 1] []
      = some [(Coordinate.c1 1, 0)] := by
    rw [Runtime.runTickLoop_cons_insert hpc]
    exact Runtime.runTickLoop_nil rtStatic _
  have h1 : Runtime.runTick rtStatic = some rtStatic' := by
    unfold Runtime.runTick
    rw [show keysG rtStatic.current_tick = [Coordinate.c1 1] from rfl, hl]
    rfl
  have hpc2 : Runtime.processCell rtStatic' (Coordinate.c1 1)
      = some (some 0, []) := by decide
  have hl2 : Runtime.runTickLoop rtStatic' [Coordinate.c1 1] []
      = some [(Coordinate.c1 1, 0)] := by
    rw [Runtime.runTickLoop_cons_insert hpc2]
    exact Runtime.runTickLoop_nil rtStatic' _
  have h2 : Runtime.runTick rtStatic'
      = some { rtStatic' with tick := 2 } := by
    unfold Runtime.runTick
    rw [show keysG rtStatic'.current_tick = [Coordinate.c1 1] from rfl, hl2]
    rfl
  have hpc3 : Runtime.processCell { rtStatic' with tick := 2 } (Coordinate.c1 1)
      = some (some 0, []) := by decide
  have hl3 : Runtime.runTickLoop { rtStatic' with tick := 2 } [Coordinate.c1 1] []
      = some [(Coordinate.c1 1, 0)] := by
    rw [Runtime.runTickLoop_cons_insert hpc3]
    exact Runtime.runTickLoop_nil _ _
  have h3 : Runtime.runTick { rtStatic' with tick := 2 }
      = some { rtStatic' with tick := 3 } := by
    unfold Runtime.runTick
    rw [show keysG ({ rtStatic' with tick := 2 } : Runtime).current_tick
          = [Coordinate.c1 1] from rfl, hl3]
    rfl
  have hall : Runtime.runTicks rtStatic 3 = some { rtStatic' with tick := 3 } := by
    unfold Runtime.runTicks
    rw [h1]
    simp only [Option.bind_eq_bind, Option.some_bind]
    unfold Runtime.runTicks
    rw [h2]
    simp only [Option.bind_eq_bind, Option.some_bind]
    unfold Runtime.runTicks
    rw [h3]
    simp only [Option.bind_eq_bind, Option.some_bind]
    unfold Runtime.runTicks
    rfl
  exact ⟨{ rtStatic' with tick := 3 }, hall,
    (static_unseeded_cell_invariant rtStatic (some "A") rfl 3 _ hall
      (Coordinate.c1 (-1)) (by decide)).1,
    (static_unseeded_cell_invariant rtStatic (some "A") rfl 3 _ hall
      (Coordinate.c1 (-1)) (by decide)).2⟩

/-- C10 (implicit — `FixedGrid` frame property): `set_state` writes only
the next-tick buffer, so no `get_state` read is affected by it; and after
`tick()` every coordinate that was not written during the tick (absent
from the next-tick buffer) reads exactly the state it had before. -/
theorem fixed_grid_frame_property {C : Type} [DecidableEq C] [Add C]
    (env : FixedGrid C) (c d : C) (s : Nat) :
    ((env.set_state c s).get_state d = env.get_state d) ∧
    (lookupL env.next_tick d = none →
      (env.tick).get_state d = env.get_state d) := by
  refine ⟨rfl, ?_⟩
  intro hd
  rw [FixedGrid.get_state_tick, hd]

/-- Witness for C10: writing cell `0` does not disturb the read of cell
`1`, and cell `1` (unwritten) survives the tick with its state `5`. -/
theorem fixed_grid_frame_property_witness :
    ((exEnv2.set_state 0 9).get_state 1 = exEnv2.get_state 1) ∧
    ((exEnv2.tick).get_state 1 = exEnv2.get_state 1) :=
  ⟨(fixed_grid_frame_property exEnv2 0 1 9).1,
   (fixed_grid_frame_property exEnv2 0 1 9).2 rfl⟩

end Loaf
